import Mathlib

/-!
Shallow embedding of `portfolio_updater.py` (class `PortfolioUpdater`).

A spreadsheet cell value is modelled by `Cell`: Python `None` (and pandas
`NaN`, which outer merges put into unmatched cells) is `Cell.empty`,
strings are `Cell.str`, numbers are `Cell.num` over `Rat`,
`datetime.datetime` is `Cell.dt` (a calendar-day number plus a
time-of-day number) and `datetime.date` is `Cell.date` (calendar day
only; `datetime.datetime` and `datetime.date` are distinct Python types,
so they are distinct constructors here).

A pandas `DataFrame` with a named index (as produced by `load`) is `Df`:
the index name, the column labels (the index column excluded, as in
`df.axes[1]`), and the rows, each an index value paired with the cell
values aligned with the column labels.  A frame without a meaningful
index (after `reset_index`) is `Frame`: header labels plus rows.

A Python `dict` (insertion ordered, as metadata dictionaries are) is
`Dict`: an association list whose `insert` replaces in place when the key
is present and appends otherwise, exactly Python's `d[k] = v`.

An openpyxl worksheet is `Sheet`: a total function from (row, column)
(1-based) to `Cell`, plus the tracked maximal row and column, which
openpyxl grows on every write and which bound the cells returned by
`sheet['1']` / `sheet['2']`.
-/

inductive Cell where
  | empty : Cell
  | str : String → Cell
  | num : Rat → Cell
  | dt : Nat → Nat → Cell
  | date : Nat → Cell
deriving DecidableEq, Repr

/-- Python truthiness of a cell value (`if key.value:` in the source):
`None`, the empty string and zero are falsy. -/
def Cell.truthy : Cell → Bool
  | Cell.empty => false
  | Cell.str s => s ≠ ""
  | Cell.num q => q ≠ 0
  | Cell.dt _ _ => true
  | Cell.date _ => true

abbrev Dict : Type := List (Cell × Cell)

/-- Python `d[k] = v`: replace the value in place when the key is present,
append the pair otherwise. -/
def Dict.insert : Dict → Cell → Cell → Dict
  | [], k, v => [(k, v)]
  | (k', v') :: t, k, v =>
      if k' = k then (k, v) :: t else (k', v') :: Dict.insert t k v

/-- Python `k in d`. -/
def Dict.contains : Dict → Cell → Bool
  | [], _ => false
  | (k', _) :: t, k => k' = k || Dict.contains t k

/-- Python `d[k]`, as an option (`none` models a raised `KeyError`). -/
def Dict.find? : Dict → Cell → Option Cell
  | [], _ => none
  | (k', v') :: t, k => if k' = k then some v' else Dict.find? t k

def Dict.keys (d : Dict) : List Cell := d.map Prod.fst

structure Frame where
  header : List Cell
  rows : List (List Cell)
deriving DecidableEq, Repr

structure Df where
  indexName : Cell
  cols : List Cell
  rows : List (Cell × List Cell)
deriving DecidableEq, Repr

/-- The value a row holds at the first column with the given label, `NaN` when
the label is absent (the frames built here always carry the label). -/
def getCol : List Cell → List Cell → Cell → Cell
  | c' :: h, v :: r, c => if c' = c then v else getCol h r c
  | _, _, _ => Cell.empty

/-- The tuple of a row's values at the join-key columns. -/
def keyTuple (h : List Cell) (ks : List Cell) (r : List Cell) : List Cell :=
  ks.map (getCol h r)

/-- `df.reset_index()`: the index becomes the leading column, labelled with the
index name. -/
def resetIndexFrame (df : Df) : Frame :=
  ⟨df.indexName :: df.cols, df.rows.map (fun r => r.1 :: r.2)⟩

/-- Post-state of `df.reset_index(inplace=True)` as a `Df`: the identifier
index moves into the leading data column and is replaced by an unnamed
integer `RangeIndex` (`Cell.empty` index name, indices 0, 1, 2, ...). -/
def resetIndexDf (df : Df) : Df :=
  ⟨Cell.empty, df.indexName :: df.cols,
    (List.range df.rows.length).zip (df.rows.map (fun r => r.1 :: r.2))
      |>.map (fun p => (Cell.num p.1, p.2))⟩

/-- `df.set_index(name)`: the first column labelled `name` becomes the index
and leaves the data columns. -/
def setIndexF (f : Frame) (name : Cell) : Df :=
  let j := f.header.findIdx (fun c => decide (c = name))
  ⟨name, f.header.eraseIdx j,
    f.rows.map (fun r => (r.getD j Cell.empty, r.eraseIdx j))⟩

/-- The merge's join keys: all columns common to both frames, in the first
frame's column order (pandas `merge` with no `on=`). -/
def mergeKs (f1 f2 : Frame) : List Cell :=
  f1.header.filter (fun c => decide (c ∈ f2.header))

/-- The second frame's columns absent from the first, appended after the
first frame's columns in the merge's output. -/
def mergeROnly (f1 f2 : Frame) : List Cell :=
  f2.header.filter (fun c => decide (c ∉ f1.header))

/-- The second frame's rows whose join-key tuple equals that of `r1`. -/
def matchRows (f1 f2 : Frame) (r1 : List Cell) : List (List Cell) :=
  f2.rows.filter (fun r2 =>
    decide (keyTuple f2.header (mergeKs f1 f2) r2 = keyTuple f1.header (mergeKs f1 f2) r1))

/-- The merge's left block: each left row paired with each of its matches
(right-only columns filled from the match), or alone with `NaN` in the
right-only columns when it has no match. -/
def leftJoinRows (f1 f2 : Frame) : List (List Cell) :=
  f1.rows.flatMap (fun r1 =>
    let ms := matchRows f1 f2 r1
    if ms.isEmpty then [r1 ++ (mergeROnly f1 f2).map (fun _ => Cell.empty)]
    else ms.map (fun r2 => r1 ++ (mergeROnly f1 f2).map (getCol f2.header r2)))

/-- The merge's right block: the unmatched right rows, with the key columns
filled from the right row and `NaN` in the left-only columns. -/
def rightRestRows (f1 f2 : Frame) : List (List Cell) :=
  (f2.rows.filter (fun r2 =>
      ! f1.rows.any (fun r1 =>
        decide (keyTuple f2.header (mergeKs f1 f2) r2 =
          keyTuple f1.header (mergeKs f1 f2) r1)))).map
    (fun r2 =>
      f1.header.map (fun c =>
        if (mergeKs f1 f2).contains c then getCol f2.header r2 c else Cell.empty)
        ++ (mergeROnly f1 f2).map (getCol f2.header r2))

/-- `pandas.merge(f1, f2, how='outer')` with no explicit keys: the join keys
are all columns common to both frames, in `f1`'s column order.  Matched key
tuples pair up (many-to-many); left rows without a match keep their values
and get `NaN` in the right-only columns; unmatched right rows follow, with
`NaN` in the left-only columns.  (pandas additionally sorts an outer merge's
rows by key; no property stated below depends on row order, and this model
keeps left rows first, in order, then unmatched right rows, in order.) -/
def mergeOuter (f1 f2 : Frame) : Frame :=
  ⟨f1.header ++ mergeROnly f1 f2, leftJoinRows f1 f2 ++ rightRestRows f1 f2⟩

/-- Ordering used to model `sort_index(axis=1)` on the date columns: date
labels compare chronologically; the other constructors are ranked so the
order is total (the date columns of the tables here are all `Cell.dt`). -/
def cellLe : Cell → Cell → Bool
  | Cell.empty, _ => true
  | _, Cell.empty => false
  | Cell.str a, Cell.str b => a ≤ b
  | Cell.str _, _ => true
  | _, Cell.str _ => false
  | Cell.num a, Cell.num b => a ≤ b
  | Cell.num _, _ => true
  | _, Cell.num _ => false
  | Cell.date a, Cell.date b => a ≤ b
  | Cell.date _, _ => true
  | _, Cell.date _ => false
  | Cell.dt a t, Cell.dt b u => a < b || (a = b && t ≤ u)

def insertLe (le : Nat → Nat → Bool) (x : Nat) : List Nat → List Nat
  | [] => [x]
  | y :: t => if le x y then x :: y :: t else y :: insertLe le x t

def isort (le : Nat → Nat → Bool) : List Nat → List Nat
  | [] => []
  | x :: t => insertLe le x (isort le t)

/-- The positions 0, ..., n-1 of the labels, reordered so the labels they pick
are sorted ascending. -/
def sortIdx (labels : List Cell) : List Nat :=
  isort (fun i j => cellLe (labels.getD i Cell.empty) (labels.getD j Cell.empty))
    (List.range labels.length)

/-- `add_dates(portfolio, additions)`, the value it returns: reset both
indexes, outer-merge on the shared columns, re-index by the column 'ID', and
re-emit with the first two data columns fixed and the remaining (date)
columns sorted ascending by label. -/
def add_dates (p a : Df) : Df :=
  let m := mergeOuter (resetIndexFrame p) (resetIndexFrame a)
  let dfm := setIndexF m (Cell.str "ID")
  let dcols := dfm.cols.drop 2
  let perm := sortIdx dcols
  ⟨dfm.indexName, dfm.cols.take 2 ++ perm.map (fun i => dcols.getD i Cell.empty),
    dfm.rows.map (fun r =>
      (r.1, r.2.take 2 ++ perm.map (fun i => (r.2.drop 2).getD i Cell.empty)))⟩

/-- `add_dates` together with the post-call states of its two arguments.
Line 115 of the source runs `portfolio.reset_index(inplace=True)`, which
mutates the caller's first `DataFrame` in place; every later operation
(`merge`, `set_index` on the merge's result, `sort_index`, `concat`) builds
new frames, and `additions` is only touched by a non-inplace
`reset_index()`.  So after the call the first argument holds
`resetIndexDf p` and the second still holds `a`. -/
def add_dates_run (p a : Df) : Df × Df × Df :=
  (add_dates p a, resetIndexDf p, a)

/-- The weight the table assigns: the value of the first row whose identifier
is `i`, at the position of the first column labelled `c`. -/
def weightAt (df : Df) (i c : Cell) : Cell :=
  match df.rows.find? (fun r => decide (r.1 = i)) with
  | none => Cell.empty
  | some r => r.2.getD (df.cols.findIdx (fun x => decide (x = c))) Cell.empty

/-- Fuel-driven core of `colLetter`; the fuel only has to exceed the column
number, and `colLetter` always supplies enough. -/
def colLetterAux : Nat → Nat → String
  | 0, _ => ""
  | fuel + 1, n =>
      if n = 0 then ""
      else colLetterAux fuel ((n - 1) / 26)
        ++ String.singleton (Char.ofNat (65 + (n - 1) % 26))

/-- `openpyxl.utils.get_column_letter`: 1-based column number to letters
(1 ↦ A, 26 ↦ Z, 27 ↦ AA), bijective base 26. -/
def colLetter (n : Nat) : String := colLetterAux (n + 1) n

/-- Fuel-driven core of `natDigits`; the fuel only has to exceed the number,
and `natDigits` always supplies enough. -/
def natDigitsAux : Nat → Nat → List Char
  | 0, _ => []
  | fuel + 1, n =>
      if n < 10 then [Char.ofNat (48 + n)]
      else natDigitsAux fuel (n / 10) ++ [Char.ofNat (48 + n % 10)]

/-- Decimal rendering of a natural number, modelling Python `str(n)` (and the
`str()` that the range strings go through). -/
def natDigits (n : Nat) : List Char := natDigitsAux (n + 1) n

def strOfNat (n : Nat) : String := String.mk (natDigits n)

/-- The secondary-metadata loop of `update_metadata` (source lines 206-209):
each key of `j` still absent from the accumulated metadata is copied over. -/
def joinDicts (m j : Dict) : Dict :=
  j.foldl (fun acc kv =>
    if Dict.contains acc kv.1 then acc else Dict.insert acc kv.1 kv.2) m

/-- `update_metadata(portfolio, metadata, joined_metadata)` (source lines
188-210): seed `MPI_Rebalance` when absent, force `MPI_PORTFOLIOTYPE` to
'Advanced', overwrite the four derived range keys from the table's shape
(`len(portfolio) + 4` rows, `len(portfolio.axes[1]) + 1` columns), then copy
over the secondary metadata's keys that are still absent. -/
def update_metadata (p : Df) (metadata : Option Dict) (joined_metadata : Option Dict) :
    Dict :=
  let m := match metadata with
    | none => ([] : Dict)
    | some d => d
  let m := if Dict.contains m (Cell.str "MPI_Rebalance") then m
    else Dict.insert m (Cell.str "MPI_Rebalance") (Cell.str "Monthly")
  let m := Dict.insert m (Cell.str "MPI_PORTFOLIOTYPE") (Cell.str "Advanced")
  let lastRow := strOfNat (p.rows.length + 4)
  let lastCol := colLetter (p.cols.length + 1)
  let m := Dict.insert m (Cell.str "MPI_ASSETIDRANGE") (Cell.str ("A5:A" ++ lastRow))
  let m := Dict.insert m (Cell.str "MPI_LABELRANGE") (Cell.str ("B5:B" ++ lastRow))
  let m := Dict.insert m (Cell.str "MPI_ASSETDBIDRANGE") (Cell.str ("C5:C" ++ lastRow))
  let m := Dict.insert m (Cell.str "MPI_PORTFOLIODATERANGE")
    (Cell.str ("D4:" ++ lastCol ++ "4"))
  match joined_metadata with
  | none => m
  | some j => joinDicts m j

structure Sheet where
  cells : Nat → Nat → Cell
  maxRow : Nat
  maxCol : Nat

def emptySheet : Sheet := ⟨fun _ _ => Cell.empty, 0, 0⟩

/-- Writing one cell (openpyxl grows the sheet's tracked dimension on every
write). -/
def setCell (s : Sheet) (r c : Nat) (v : Cell) : Sheet :=
  ⟨fun r' c' => if r' = r ∧ c' = c then v else s.cells r' c',
    max s.maxRow r, max s.maxCol c⟩

/-- One pending write: ((row, column), value). -/
abbrev Wr : Type := (Nat × Nat) × Cell

def setCells (s : Sheet) (ws : List Wr) : Sheet :=
  ws.foldl (fun s w => setCell s w.1.1 w.1.2 w.2) s

/-- The metadata loop of `write` (source lines 134-136), with `n` keys already
written: pair `i` goes to row 1 / row 2 of column `n + i + 1`. -/
def metaWritesFrom (n : Nat) : Dict → List Wr
  | [] => []
  | (k, v) :: t => ((1, n + 1), k) :: ((2, n + 1), v) :: metaWritesFrom (n + 1) t

/-- The date-header loop of `write` (source lines 138-140): the header at
column position `n` goes to row 4, column `n + 2`, when it is a
`datetime.datetime`, with `header.date()` discarding the time of day. -/
def dateWritesFrom (n : Nat) : List Cell → List Wr
  | [] => []
  | Cell.dt d _ :: t => ((4, n + 2), Cell.date d) :: dateWritesFrom (n + 1) t
  | _ :: t => dateWritesFrom (n + 1) t

def valWritesFrom (r n : Nat) : List Cell → List Wr
  | [] => []
  | v :: t => ((r, n + 2), v) :: valWritesFrom r (n + 1) t

/-- The body loop of `write` (source lines 142-146), with `n` rows already
written: row `n + i` of the table goes to sheet row `n + i + 5`, its
identifier to column 1 and its values to columns 2 onwards. -/
def bodyWritesFrom (n : Nat) : List (Cell × List Cell) → List Wr
  | [] => []
  | (id, vals) :: t =>
      (((n + 5, 1), id) :: valWritesFrom (n + 5) 0 vals) ++ bodyWritesFrom (n + 1) t

/-- `write(portfolio, metadata, ...)` restricted to the worksheet it mutates:
metadata keys and values into rows 1-2, `datetime` column headers into row 4
(column = position + 2, time discarded), then the body from row 5. -/
def write (p : Df) (metadata : Dict) (s : Sheet) : Sheet :=
  setCells s (metaWritesFrom 0 metadata ++ dateWritesFrom 0 p.cols
    ++ bodyWritesFrom 0 p.rows)

/-- The metadata scan shared by `load` (vendor branch and metadata-bearing
generic branch) and `get_metadata`: walk `zip(sheet['1'], sheet['2'])` — rows
1 and 2 up to the sheet's tracked maximal column — and store each truthy
row-1 value as a key mapped to the row-2 value below it. -/
def metaOf (s : Sheet) : Dict :=
  (List.range s.maxCol).foldl (fun m c =>
    if (s.cells 1 (c + 1)).truthy then Dict.insert m (s.cells 1 (c + 1)) (s.cells 2 (c + 1))
    else m) []

inductive LoadError where
  | formatError : LoadError
  | keyError : String → LoadError
  | typeError : LoadError
  | valueError : LoadError
  | indexError : LoadError
deriving DecidableEq, Repr

/-- The row of cells `sheet[r]`, across columns 1 to the tracked maximum. -/
def sheetRow (s : Sheet) (r : Nat) : List Cell :=
  (List.range s.maxCol).map (fun c => s.cells r (c + 1))

/-- All rows of the sheet, 1 to the tracked maximum. -/
def sheetRowsList (s : Sheet) : List (List Cell) :=
  (List.range s.maxRow).map (fun r => sheetRow s (r + 1))

/-- `pandas.read_excel(..., index_col=0)`, on the sheet's populated
rectangle, optionally with `skiprows=[0,1]`: the first remaining row names
the columns, the first column becomes the index. -/
def readExcelDf (s : Sheet) (skipTwo : Bool) : Df :=
  let all := sheetRowsList s
  let rows := if skipTwo then all.drop 2 else all
  let hdr := rows.headD []
  let body := rows.tail
  ⟨hdr.headD Cell.empty, hdr.tail,
    body.map (fun r => (r.headD Cell.empty, r.tail))⟩

/-- The generic (non-Stylus) branch of `load` (source lines 75-87): when cell
A1 is the literal string 'ID' the sheet is read as a headed table with no
metadata; otherwise the first two rows are read as a metadata mapping and
skipped for the table.  No branch raises; in particular nothing raises a
format error. -/
def load_generic (s : Sheet) : Except LoadError (Df × Option Dict) :=
  if s.cells 1 1 = Cell.str "ID" then Except.ok (readExcelDf s false, none)
  else Except.ok (readExcelDf s true, some (metaOf s))

/-- Python `s.split(sep)` for a one-character separator, over the character
list. -/
def pySplit (sep : Char) : List Char → List (List Char)
  | [] => [[]]
  | c :: t =>
      let r := pySplit sep t
      if c = sep then [] :: r
      else (c :: r.headD []) :: r.tail

/-- Python `int(s)` on a non-negative decimal string, as an option (`none`
models a raised `ValueError`). -/
def pyNat (cs : List Char) : Option Nat :=
  if cs ≠ [] ∧ cs.all Char.isDigit then
    some (cs.foldl (fun acc c => acc * 10 + (c.toNat - 48)) 0)
  else none

/-- Column letters to the 1-based column number (A ↦ 1, Z ↦ 26, AA ↦ 27),
inverse of `colLetter`. -/
def colVal (cs : List Char) : Nat :=
  cs.foldl (fun acc c => acc * 26 + (c.toNat - 64)) 0

/-- A cell reference such as 'F14' parsed into (column number, row number):
the leading non-digits are the column letters, the rest the row digits. -/
def parseRef (cs : List Char) : Nat × Nat :=
  (colVal (cs.takeWhile (fun c => ! c.isDigit)),
    (pyNat (cs.dropWhile (fun c => ! c.isDigit))).getD 0)

/-- `get_metadata(sheet)` (source lines 149-170): collect the metadata from
rows 1-2, then derive the portfolio's cell range — 'A' at the row just above
`MPI_LABELRANGE`'s start, through `MPI_PORTFOLIODATERANGE`'s end column at
`MPI_LABELRANGE`'s end row.  A missing key raises `KeyError`; splitting,
slicing and `int()` on malformed range strings raise too. -/
def get_metadata (s : Sheet) : Except LoadError (Dict × List Char × List Char) :=
  let m := metaOf s
  match Dict.find? m (Cell.str "MPI_LABELRANGE") with
  | none => Except.error (LoadError.keyError "MPI_LABELRANGE")
  | some lv =>
    match lv with
    | Cell.str lrs =>
      match Dict.find? m (Cell.str "MPI_PORTFOLIODATERANGE") with
      | none => Except.error (LoadError.keyError "MPI_PORTFOLIODATERANGE")
      | some dv =>
        match dv with
        | Cell.str drs =>
          match pySplit ':' lrs.data, pySplit ':' drs.data with
          | r0 :: r1 :: _, _ :: c1 :: _ =>
            (match pyNat (r0.drop 1) with
             | none => Except.error LoadError.valueError
             | some n0 =>
                Except.ok (m, 'A' :: natDigits (n0 - 1),
                  c1.takeWhile (fun ch => ! ch.isDigit) ++ r1.drop 1))
          | _, _ => Except.error LoadError.indexError
        | _ => Except.error LoadError.typeError
    | _ => Except.error LoadError.typeError

/-- The inclusive rectangular region `sheet[cr0:cr1]` as rows of cell
values. -/
def sheetRegion (s : Sheet) (cr0 cr1 : List Char) : List (List Cell) :=
  let p0 := parseRef cr0
  let p1 := parseRef cr1
  (List.range (p1.2 + 1 - p0.2)).map (fun i =>
    (List.range (p1.1 + 1 - p0.1)).map (fun j => s.cells (p0.2 + i) (p0.1 + j)))

/-- `get_portfolio(sheet, cellrange)` (source lines 172-186) followed by the
DataFrame construction of `load`'s vendor branch (lines 69-74): the region's
first row becomes the header with its first three cells forcibly relabelled
'ID', 'Label', 'DBID', the rest the body, and the column 'ID' the index. -/
def get_portfolio (s : Sheet) (cr0 cr1 : List Char) : Df :=
  let rows := sheetRegion s cr0 cr1
  let hdr := rows.headD []
  let hdr := [Cell.str "ID", Cell.str "Label", Cell.str "DBID"] ++ hdr.drop 3
  setIndexF ⟨hdr, rows.tail⟩ (Cell.str "ID")

/-- The vendor (Stylus) branch of `load` (source lines 64-74). -/
def load_stylus (s : Sheet) : Except LoadError (Df × Dict) :=
  match get_metadata s with
  | Except.error e => Except.error e
  | Except.ok (m, cr0, cr1) => Except.ok (get_portfolio s cr0 cr1, m)

/-- The merge arm of `run` (source lines 216-221), after both sources are
loaded: the table is `add_dates(existing_data, data)` — the existing file's
table in the first position — and the metadata is
`update_metadata(data, existing_meta, meta)` — the existing file's metadata
in the primary position, the first argument's in the joined position. -/
def runCore (data : Df) (meta : Option Dict) (existing_data : Df)
    (existing_meta : Option Dict) : Df × Dict :=
  let d := add_dates existing_data data
  (d, update_metadata d existing_meta meta)

instance exceptDecEq {ε α : Type} [DecidableEq ε] [DecidableEq α] :
    DecidableEq (Except ε α)
  | Except.ok a, Except.ok b =>
      if h : a = b then isTrue (by rw [h])
      else isFalse (fun he => h (Except.ok.inj he))
  | Except.ok _, Except.error _ => isFalse (fun he => Except.noConfusion he)
  | Except.error _, Except.ok _ => isFalse (fun he => Except.noConfusion he)
  | Except.error e, Except.error f =>
      if h : e = f then isTrue (by rw [h])
      else isFalse (fun he => h (Except.error.inj he))

/-- Header normalisation for the round-trip statement: a `datetime.datetime`
header survives `write`/`load` as the calendar date `header.date()`; every
other header survives unchanged. -/
def normHdr : Cell → Cell
  | Cell.dt d _ => Cell.date d
  | c => c

/-- Identifier occurrence: how many of the table's rows carry identifier
`i`. -/
def idxCount (df : Df) (i : Cell) : Nat :=
  (df.rows.map Prod.fst).count i

/-- Membership of an identifier among a table's row identifiers. -/
def idxMem (df : Df) (i : Cell) : Prop :=
  i ∈ df.rows.map Prod.fst

instance (df : Df) (i : Cell) : Decidable (idxMem df i) := by
  unfold idxMem
  infer_instance

/-- The columns both tables would contribute to the merge's join keys: labels
common to the two reset frames, in the first frame's order. -/
def sharedCols (p a : Df) : List Cell :=
  (p.indexName :: p.cols).filter (fun c => decide (c ∈ a.indexName :: a.cols))

/-- The rows of the two tables carrying identifier `i` agree on every shared
column (so the outer merge pairs them instead of duplicating them). -/
def agreeOnShared (p a : Df) (i : Cell) : Prop :=
  ∀ rv ∈ p.rows, rv.1 = i → ∀ rw ∈ a.rows, rw.1 = i →
    keyTuple (p.indexName :: p.cols) (sharedCols p a) (rv.1 :: rv.2) =
      keyTuple (a.indexName :: a.cols) (sharedCols p a) (rw.1 :: rw.2)

instance (p a : Df) (i : Cell) : Decidable (agreeOnShared p a i) := by
  unfold agreeOnShared
  infer_instance

/-- The four metadata keys `update_metadata` always derives from the table's
shape. -/
def rangeKeys : List Cell :=
  [Cell.str "MPI_ASSETIDRANGE", Cell.str "MPI_LABELRANGE",
    Cell.str "MPI_ASSETDBIDRANGE", Cell.str "MPI_PORTFOLIODATERANGE"]

/-- The spec's worked example, first input: FOUSA1 / MStarFund / MfX with
weight 10 on 2018-01-01 (dates encoded as yyyymmdd day numbers, midnight). -/
def exP1 : Df :=
  ⟨Cell.str "ID", [Cell.str "Label", Cell.str "DBID", Cell.dt 20180101 0],
    [(Cell.str "FOUSA1", [Cell.str "MStarFund", Cell.str "MfX", Cell.num 10])]⟩

/-- The spec's worked example, second input: 012345 / eVestFund / eVa with
weight 0 on 2018-02-01. -/
def exA1 : Df :=
  ⟨Cell.str "ID", [Cell.str "Label", Cell.str "DBID", Cell.dt 20180201 0],
    [(Cell.str "012345", [Cell.str "eVestFund", Cell.str "eVa", Cell.num 0])]⟩

/-- Two one-row tables that agree on identifier X and DBID but disagree on
the Label field. -/
def exPL : Df :=
  ⟨Cell.str "ID", [Cell.str "Label", Cell.str "DBID"],
    [(Cell.str "X", [Cell.str "a", Cell.str "m"])]⟩

def exAL : Df :=
  ⟨Cell.str "ID", [Cell.str "Label", Cell.str "DBID"],
    [(Cell.str "X", [Cell.str "b", Cell.str "m"])]⟩

/-- A 10 record, 3 date-column table (the spec's `update_metadata`
example). -/
def exT10 : Df :=
  ⟨Cell.str "ID",
    [Cell.str "Label", Cell.str "DBID", Cell.dt 20180101 0, Cell.dt 20180201 0,
      Cell.dt 20180301 0],
    (List.range 10).map (fun i =>
      (Cell.num i, [Cell.str "l", Cell.str "d", Cell.num 1, Cell.num 2, Cell.num 3]))⟩

/-- A generic-layout sheet whose cell A1 is not the literal 'ID': two
metadata rows, then a header row, then one data row. -/
def exS4 : Sheet :=
  setCells emptySheet
    [((1, 1), Cell.str "MPI_Rebalance"), ((2, 1), Cell.str "Monthly"),
      ((3, 1), Cell.str "ID"), ((3, 2), Cell.str "Label"),
      ((4, 1), Cell.str "F1"), ((4, 2), Cell.str "Lab")]

/-- A one-row, one-date table for the writer examples. -/
def exT6 : Df :=
  ⟨Cell.str "ID", [Cell.str "Label", Cell.str "DBID", Cell.dt 20180101 0],
    [(Cell.str "F1", [Cell.str "Lab", Cell.str "Dbi", Cell.num 5])]⟩

def exM6 : Dict := update_metadata exT6 none none

/-- Primary metadata carrying its own portfolio type. -/
def exM8 : Dict := [(Cell.str "MPI_PORTFOLIOTYPE", Cell.str "Basic")]

/-- Primary and secondary metadata that share the portfolio-type key with
different values. -/
def exM9p : Dict :=
  [(Cell.str "MPI_PORTFOLIOTYPE", Cell.str "Basic"), (Cell.str "MPI_OWNER", Cell.str "ops")]

def exM9s : Dict :=
  [(Cell.str "MPI_PORTFOLIOTYPE", Cell.str "Custom"), (Cell.str "MPI_NOTE", Cell.str "n"),
    (Cell.str "MPI_OWNER", Cell.str "sec")]

theorem Dict.find?_insert (d : Dict) (k v k' : Cell) :
    Dict.find? (Dict.insert d k v) k' = if k = k' then some v else Dict.find? d k' := by
  induction d with
  | nil => simp [Dict.insert, Dict.find?]
  | cons h t ih =>
      obtain ⟨k0, v0⟩ := h
      by_cases h0 : k0 = k
      · subst h0
        by_cases h1 : k0 = k'
        · subst h1
          simp [Dict.insert, Dict.find?]
        · simp [Dict.insert, Dict.find?, h1]
      · by_cases h1 : k0 = k'
        · subst h1
          simp [Dict.insert, Dict.find?, h0, Ne.symm h0]
        · simp [Dict.insert, Dict.find?, h0, h1, ih]

theorem Dict.contains_eq_isSome (d : Dict) (k : Cell) :
    Dict.contains d k = (Dict.find? d k).isSome := by
  induction d with
  | nil => simp [Dict.contains, Dict.find?]
  | cons h t ih =>
      obtain ⟨k0, v0⟩ := h
      by_cases h0 : k0 = k
      · simp [Dict.contains, Dict.find?, h0]
      · simp [Dict.contains, Dict.find?, h0, ih]

theorem joinDicts_find?_of_isSome (j : List (Cell × Cell)) (m : Dict) (k : Cell)
    (h : (Dict.find? m k).isSome) :
    Dict.find? (joinDicts m j) k = Dict.find? m k := by
  induction j generalizing m with
  | nil => rfl
  | cons kv t ih =>
      show Dict.find? (joinDicts (if Dict.contains m kv.1 then m
        else Dict.insert m kv.1 kv.2) t) k = _
      by_cases hc : Dict.contains m kv.1
      · rw [if_pos hc, ih m h]
      · rw [if_neg hc]
        have hne : kv.1 ≠ k := by
          intro he
          rw [he, Dict.contains_eq_isSome, h] at hc
          exact hc rfl
        have hpres : Dict.find? (Dict.insert m kv.1 kv.2) k = Dict.find? m k := by
          rw [Dict.find?_insert, if_neg hne]
        rw [ih _ (by rw [hpres]; exact h), hpres]

theorem joinDicts_find?_of_none (j : List (Cell × Cell)) (m : Dict) (k : Cell)
    (h : Dict.find? m k = none) :
    Dict.find? (joinDicts m j) k = Dict.find? j k := by
  induction j generalizing m with
  | nil => simpa [joinDicts, Dict.find?] using h
  | cons kv t ih =>
      show Dict.find? (joinDicts (if Dict.contains m kv.1 then m
        else Dict.insert m kv.1 kv.2) t) k = _
      by_cases he : kv.1 = k
      · have hc : ¬ Dict.contains m kv.1 := by
          rw [he, Dict.contains_eq_isSome, h]
          simp
        rw [if_neg hc]
        have hself : Dict.find? (Dict.insert m kv.1 kv.2) k = some kv.2 := by
          rw [Dict.find?_insert, if_pos he]
        rw [joinDicts_find?_of_isSome t _ k (by rw [hself]; rfl), hself]
        show _ = Dict.find? (kv :: t) k
        obtain ⟨k1, v1⟩ := kv
        simp only at he
        simp [Dict.find?, he]
      · have hstep : Dict.find? (if Dict.contains m kv.1 then m
            else Dict.insert m kv.1 kv.2) k = none := by
          by_cases hc : Dict.contains m kv.1
          · rw [if_pos hc]; exact h
          · rw [if_neg hc, Dict.find?_insert, if_neg he]; exact h
        rw [ih _ hstep]
        show _ = Dict.find? (kv :: t) k
        obtain ⟨k1, v1⟩ := kv
        simp only at he
        simp [Dict.find?, he]

theorem update_metadata_some_eq (df : Df) (md : Option Dict) (j : Dict) :
    update_metadata df md (some j) = joinDicts (update_metadata df md none) j := rfl

theorem um_base_find?_other (df : Df) (md : Dict) (k : Cell)
    (h1 : k ∉ rangeKeys) (h2 : k ≠ Cell.str "MPI_PORTFOLIOTYPE")
    (h3 : k ≠ Cell.str "MPI_Rebalance") :
    Dict.find? (update_metadata df (some md) none) k = Dict.find? md k := by
  simp only [rangeKeys, List.mem_cons, not_or] at h1
  obtain ⟨ha, hb, hc, hd, -⟩ := h1
  simp only [update_metadata]
  rw [Dict.find?_insert, if_neg (Ne.symm hd), Dict.find?_insert, if_neg (Ne.symm hc),
    Dict.find?_insert, if_neg (Ne.symm hb), Dict.find?_insert, if_neg (Ne.symm ha),
    Dict.find?_insert, if_neg (Ne.symm h2)]
  by_cases hcon : Dict.contains md (Cell.str "MPI_Rebalance")
  · rw [if_pos hcon]
  · rw [if_neg hcon, Dict.find?_insert, if_neg (Ne.symm h3)]

theorem um_base_find?_present (df : Df) (md : Dict) (k : Cell)
    (h1 : k ∉ rangeKeys) (h2 : k ≠ Cell.str "MPI_PORTFOLIOTYPE")
    (hsome : (Dict.find? md k).isSome) :
    Dict.find? (update_metadata df (some md) none) k = Dict.find? md k := by
  by_cases h3 : k = Cell.str "MPI_Rebalance"
  · subst h3
    simp only [rangeKeys, List.mem_cons, not_or] at h1
    obtain ⟨ha, hb, hc, hd, -⟩ := h1
    simp only [update_metadata]
    rw [Dict.find?_insert, if_neg (Ne.symm hd), Dict.find?_insert, if_neg (Ne.symm hc),
      Dict.find?_insert, if_neg (Ne.symm hb), Dict.find?_insert, if_neg (Ne.symm ha),
      Dict.find?_insert, if_neg (Ne.symm h2)]
    rw [if_pos (by rw [Dict.contains_eq_isSome]; exact hsome)]
  · exact um_base_find?_other df md k h1 h2 h3

theorem um_base_find?_pt (df : Df) (md : Option Dict) :
    Dict.find? (update_metadata df md none) (Cell.str "MPI_PORTFOLIOTYPE") =
      some (Cell.str "Advanced") := by
  cases md <;> simp [update_metadata, Dict.find?_insert]

theorem um_base_find?_reb (df : Df) (md : Dict)
    (h : Dict.find? md (Cell.str "MPI_Rebalance") = none) :
    Dict.find? (update_metadata df (some md) none) (Cell.str "MPI_Rebalance") =
      some (Cell.str "Monthly") := by
  simp only [update_metadata]
  rw [Dict.find?_insert, if_neg (by decide), Dict.find?_insert, if_neg (by decide),
    Dict.find?_insert, if_neg (by decide), Dict.find?_insert, if_neg (by decide),
    Dict.find?_insert, if_neg (by decide)]
  rw [if_neg (by rw [Dict.contains_eq_isSome, h]; simp), Dict.find?_insert, if_pos rfl]

theorem um_find?_present (df : Df) (md : Dict) (jm : Option Dict) (k : Cell)
    (h1 : k ∉ rangeKeys) (h2 : k ≠ Cell.str "MPI_PORTFOLIOTYPE")
    (hsome : (Dict.find? md k).isSome) :
    Dict.find? (update_metadata df (some md) jm) k = Dict.find? md k := by
  cases jm with
  | none => exact um_base_find?_present df md k h1 h2 hsome
  | some j =>
      rw [update_metadata_some_eq,
        joinDicts_find?_of_isSome j _ k
          (by rw [um_base_find?_present df md k h1 h2 hsome]; exact hsome),
        um_base_find?_present df md k h1 h2 hsome]

/-- C5: for every table, `update_metadata` derives the identifier range
`A5:A(rows+4)`, the label range `B5:B(rows+4)`, the DBID range
`C5:C(rows+4)` and the date-header range `D4:(letter of columns+1)4`; in
particular a table of 10 records and 3 date columns (5 columns) yields
`A5:A14`, `B5:B14`, `C5:C14`, `D4:F4`. -/
theorem update_metadata_range_keys :
    (∀ (df : Df) (md jm : Option Dict),
      Dict.find? (update_metadata df md jm) (Cell.str "MPI_ASSETIDRANGE") =
        some (Cell.str ("A5:A" ++ strOfNat (df.rows.length + 4))) ∧
      Dict.find? (update_metadata df md jm) (Cell.str "MPI_LABELRANGE") =
        some (Cell.str ("B5:B" ++ strOfNat (df.rows.length + 4))) ∧
      Dict.find? (update_metadata df md jm) (Cell.str "MPI_ASSETDBIDRANGE") =
        some (Cell.str ("C5:C" ++ strOfNat (df.rows.length + 4))) ∧
      Dict.find? (update_metadata df md jm) (Cell.str "MPI_PORTFOLIODATERANGE") =
        some (Cell.str ("D4:" ++ colLetter (df.cols.length + 1) ++ "4"))) ∧
    (Dict.find? (update_metadata exT10 none none) (Cell.str "MPI_ASSETIDRANGE") =
        some (Cell.str "A5:A14") ∧
      Dict.find? (update_metadata exT10 none none) (Cell.str "MPI_LABELRANGE") =
        some (Cell.str "B5:B14") ∧
      Dict.find? (update_metadata exT10 none none) (Cell.str "MPI_ASSETDBIDRANGE") =
        some (Cell.str "C5:C14") ∧
      Dict.find? (update_metadata exT10 none none) (Cell.str "MPI_PORTFOLIODATERANGE") =
        some (Cell.str "D4:F4")) := by
  constructor
  · intro df md jm
    cases md <;> cases jm <;>
      refine ⟨?_, ?_, ?_, ?_⟩ <;>
        simp [update_metadata, Dict.find?_insert, joinDicts_find?_of_isSome]
  · exact ⟨by decide, by decide, by decide, by decide⟩

/-- C8, counterexample: `update_metadata` given a supplied metadata whose
portfolio-type key holds 'Basic' returns 'Advanced' for that key (the
supplied value is not preserved), and seeds the rebalance key with 'Monthly'
although a metadata was supplied. -/
theorem update_metadata_overwrites_portfoliotype :
    Dict.find? exM8 (Cell.str "MPI_PORTFOLIOTYPE") = some (Cell.str "Basic") ∧
    Dict.find? (update_metadata exT6 (some exM8) none) (Cell.str "MPI_PORTFOLIOTYPE") =
      some (Cell.str "Advanced") ∧
    Dict.find? (update_metadata exT6 (some exM8) none) (Cell.str "MPI_Rebalance") =
      some (Cell.str "Monthly") := by
  exact ⟨by decide, by decide, by decide⟩

/-- C8 (amended): when a metadata is supplied, every key of it other than
the four derived range keys and the portfolio-type key is preserved
verbatim; the rebalance-frequency key is seeded with 'Monthly' whenever it
is absent (whether or not a metadata was supplied); the portfolio-type key
is always set to 'Advanced', overwriting any supplied value. -/
theorem update_metadata_preservation (df : Df) (md : Dict) (jm : Option Dict) :
    (∀ k, k ∉ rangeKeys → k ≠ Cell.str "MPI_PORTFOLIOTYPE" →
      (Dict.find? md k).isSome →
      Dict.find? (update_metadata df (some md) jm) k = Dict.find? md k) ∧
    (Dict.find? md (Cell.str "MPI_Rebalance") = none →
      Dict.find? (update_metadata df (some md) jm) (Cell.str "MPI_Rebalance") =
        some (Cell.str "Monthly")) ∧
    Dict.find? (update_metadata df (some md) jm) (Cell.str "MPI_PORTFOLIOTYPE") =
      some (Cell.str "Advanced") := by
  refine ⟨fun k h1 h2 hs => um_find?_present df md jm k h1 h2 hs, fun h => ?_, ?_⟩
  · cases jm with
    | none => exact um_base_find?_reb df md h
    | some j =>
        rw [update_metadata_some_eq,
          joinDicts_find?_of_isSome j _ _ (by rw [um_base_find?_reb df md h]; rfl),
          um_base_find?_reb df md h]
  · cases jm with
    | none => exact um_base_find?_pt df (some md)
    | some j =>
        rw [update_metadata_some_eq,
          joinDicts_find?_of_isSome j _ _ (by rw [um_base_find?_pt df (some md)]; rfl),
          um_base_find?_pt df (some md)]

theorem update_metadata_preservation_witness :
    Dict.find? (update_metadata exT6 (some exM9p) none) (Cell.str "MPI_OWNER") =
      Dict.find? exM9p (Cell.str "MPI_OWNER") :=
  (update_metadata_preservation exT6 exM9p none).1 (Cell.str "MPI_OWNER")
    (by decide) (by decide) (by decide)

/-- C9, counterexample: with the portfolio-type key present in both the
primary and the secondary metadata ('Basic' vs 'Custom'), the result holds
'Advanced' — neither value, so in particular not the primary's. -/
theorem update_metadata_join_primary_not_preserved :
    Dict.find? exM9p (Cell.str "MPI_PORTFOLIOTYPE") = some (Cell.str "Basic") ∧
    Dict.find? exM9s (Cell.str "MPI_PORTFOLIOTYPE") = some (Cell.str "Custom") ∧
    Dict.find? (update_metadata exT6 (some exM9p) (some exM9s))
      (Cell.str "MPI_PORTFOLIOTYPE") = some (Cell.str "Advanced") := by
  exact ⟨by decide, by decide, by decide⟩

/-- C9 (amended): when a secondary metadata is supplied, every key present in
the secondary but absent from the primary — other than the four derived
range keys, the portfolio-type key and the rebalance key, which
`update_metadata` has already set by the time the secondary is consulted —
is copied into the result; and for every key present in the primary, other
than the four derived range keys and the portfolio-type key, the primary's
value appears in the result. -/
theorem update_metadata_join_semantics (df : Df) (md jm : Dict) :
    (∀ k, k ∉ rangeKeys → k ≠ Cell.str "MPI_PORTFOLIOTYPE" →
      k ≠ Cell.str "MPI_Rebalance" →
      Dict.find? md k = none → (Dict.find? jm k).isSome →
      Dict.find? (update_metadata df (some md) (some jm)) k = Dict.find? jm k) ∧
    (∀ k, k ∉ rangeKeys → k ≠ Cell.str "MPI_PORTFOLIOTYPE" →
      (Dict.find? md k).isSome →
      Dict.find? (update_metadata df (some md) (some jm)) k = Dict.find? md k) := by
  constructor
  · intro k h1 h2 h3 hnone hsome
    rw [update_metadata_some_eq,
      joinDicts_find?_of_none jm _ k (by rw [um_base_find?_other df md k h1 h2 h3]; exact hnone)]
  · intro k h1 h2 hsome
    exact um_find?_present df md (some jm) k h1 h2 hsome

theorem update_metadata_join_semantics_witness :
    Dict.find? (update_metadata exT6 (some exM9p) (some exM9s)) (Cell.str "MPI_NOTE") =
      Dict.find? exM9s (Cell.str "MPI_NOTE") :=
  (update_metadata_join_semantics exT6 exM9p exM9s).1 (Cell.str "MPI_NOTE")
    (by decide) (by decide) (by decide) (by decide) (by decide)

/-- C10, counterexample: `run` with a secondary (existing) source, with the
portfolio-type key present in both files' metadata ('Custom' in the first
argument's, 'Basic' in the existing file's): the written metadata holds
'Advanced', so the existing file's value does not appear in the output. -/
theorem run_existing_metadata_not_preserved :
    Dict.find? exM9p (Cell.str "MPI_PORTFOLIOTYPE") = some (Cell.str "Basic") ∧
    Dict.find? exM9s (Cell.str "MPI_PORTFOLIOTYPE") = some (Cell.str "Custom") ∧
    Dict.find? (runCore exA1 (some exM9s) exP1 (some exM9p)).2
      (Cell.str "MPI_PORTFOLIOTYPE") = some (Cell.str "Advanced") := by
  exact ⟨by decide, by decide, by decide⟩

/-- C10 (amended): `run` with a secondary (existing) source reverses the
roles relative to the argument order — the table written is
`add_dates(existing_data, data)` and the existing file's metadata sits in
`update_metadata`'s primary position — so for every metadata key present in
both files other than the four derived range keys (recomputed from the
merged table) and the portfolio-type key (always forced to 'Advanced'), the
existing file's value, not the first argument's, appears in the output. -/
theorem run_roles_reversed (data : Df) (meta : Dict) (edata : Df) (emeta : Dict) :
    (runCore data (some meta) edata (some emeta)).1 = add_dates edata data ∧
    (∀ k, k ∉ rangeKeys → k ≠ Cell.str "MPI_PORTFOLIOTYPE" →
      (Dict.find? emeta k).isSome → (Dict.find? meta k).isSome →
      Dict.find? (runCore data (some meta) edata (some emeta)).2 k =
        Dict.find? emeta k) := by
  refine ⟨rfl, fun k h1 h2 hse hsm => ?_⟩
  exact um_find?_present (add_dates edata data) emeta (some meta) k h1 h2 hse

theorem run_roles_reversed_witness :
    Dict.find? (runCore exA1 (some exM9s) exP1 (some exM9p)).2 (Cell.str "MPI_OWNER") =
      Dict.find? exM9p (Cell.str "MPI_OWNER") :=
  (run_roles_reversed exA1 exM9s exP1 exM9p).2 (Cell.str "MPI_OWNER")
    (by decide) (by decide) (by decide) (by decide)

/-- C1 (code divergence): on the spec's worked example the merged table
carries both identifiers and both date columns, but identifier 012345's
entry for 2018-01-01 — a date column present only in the other input — is
the missing value `NaN`, not the weight zero that the claim (and the
docstring of `add_dates` itself, lines 97-100 of the source) states. -/
theorem add_dates_unshared_date_weight_missing :
    Cell.dt 20180101 0 ∈ (add_dates exP1 exA1).cols ∧
    idxMem (add_dates exP1 exA1) (Cell.str "012345") ∧
    weightAt (add_dates exP1 exA1) (Cell.str "012345") (Cell.dt 20180101 0) = Cell.empty ∧
    weightAt (add_dates exP1 exA1) (Cell.str "012345") (Cell.dt 20180101 0) ≠
      Cell.num 0 := by
  exact ⟨by decide, by decide, by decide, by decide⟩

/-- C3, counterexample: after `add_dates(exP1, exA1)` the first argument no
longer holds its original value — its 'ID' index was reset in place. -/
theorem add_dates_mutates_first_argument_example :
    (add_dates_run exP1 exA1).2.1 ≠ exP1 := by decide

/-- C3 (amended): `add_dates` returns a fresh table and leaves its second
argument unchanged, but it mutates its first argument:
`reset_index(inplace=True)` replaces the first argument's identifier index
by an integer range index, moving the identifiers into a data column, so
any identifier-indexed first argument compares different after the call. -/
theorem add_dates_first_argument_mutated (p a : Df) (h : p.indexName = Cell.str "ID") :
    (add_dates_run p a).2.2 = a ∧ (add_dates_run p a).2.1 ≠ p := by
  refine ⟨rfl, fun he => ?_⟩
  have hidx : (add_dates_run p a).2.1.indexName = Cell.empty := rfl
  rw [he, h] at hidx
  exact Cell.noConfusion hidx

theorem add_dates_first_argument_mutated_witness :
    (add_dates_run exP1 exA1).2.2 = exA1 ∧ (add_dates_run exP1 exA1).2.1 ≠ exP1 :=
  add_dates_first_argument_mutated exP1 exA1 (by decide)

/-- C4, counterexample: a sheet whose cell A1 is not the literal 'ID' does
not make `load` fail with a format error; the generic branch instead reads
rows 1-2 as metadata, skips them, and returns the table below. -/
theorem load_generic_nonid_header_returns_table :
    exS4.cells 1 1 ≠ Cell.str "ID" ∧
    load_generic exS4 ≠ Except.error LoadError.formatError ∧
    load_generic exS4 = Except.ok
      (⟨Cell.str "ID", [Cell.str "Label"], [(Cell.str "F1", [Cell.str "Lab"])]⟩,
        some [(Cell.str "MPI_Rebalance", Cell.str "Monthly")]) := by
  exact ⟨by decide, by decide, by decide⟩

/-- C4 (amended): for every sheet loaded with the generic layout flag whose
cell A1 is not the literal string 'ID', `load` does not fail: it treats
rows 1-2 as a metadata mapping, skips them, and returns the table read from
row 3 onwards together with that metadata. -/
theorem load_generic_nonid_header_reads_metadata (s : Sheet)
    (h : s.cells 1 1 ≠ Cell.str "ID") :
    load_generic s = Except.ok (readExcelDf s true, some (metaOf s)) := by
  simp [load_generic, h]

theorem load_generic_nonid_header_reads_metadata_witness :
    load_generic exS4 = Except.ok (readExcelDf exS4 true, some (metaOf exS4)) :=
  load_generic_nonid_header_reads_metadata exS4 (by decide)

theorem setCell_cells (s : Sheet) (r c : Nat) (v : Cell) (r' c' : Nat) :
    (setCell s r c v).cells r' c' = if r' = r ∧ c' = c then v else s.cells r' c' := rfl

theorem setCells_append (s : Sheet) (ws1 ws2 : List Wr) :
    setCells s (ws1 ++ ws2) = setCells (setCells s ws1) ws2 := by
  simp [setCells, List.foldl_append]

theorem setCells_cells_of_not_mem (s : Sheet) (ws : List Wr) (r c : Nat)
    (h : ∀ w ∈ ws, w.1 ≠ (r, c)) :
    (setCells s ws).cells r c = s.cells r c := by
  induction ws generalizing s with
  | nil => rfl
  | cons w t ih =>
      show (setCells (setCell s w.1.1 w.1.2 w.2) t).cells r c = _
      rw [ih _ (fun w' hw' => h w' (List.mem_cons_of_mem _ hw')), setCell_cells]
      rw [if_neg]
      rintro ⟨h1, h2⟩
      exact h w (List.mem_cons_self _ _) (by rw [h1, h2])

theorem setCells_read_last (s : Sheet) (pre post : List Wr) (r c : Nat) (v : Cell)
    (h : ∀ w ∈ post, w.1 ≠ (r, c)) :
    (setCells s (pre ++ ((r, c), v) :: post)).cells r c = v := by
  have : pre ++ ((r, c), v) :: post = (pre ++ [((r, c), v)]) ++ post := by simp
  rw [this, setCells_append, setCells_cells_of_not_mem _ _ _ _ h, setCells_append]
  show (setCell (setCells s pre) r c v).cells r c = v
  rw [setCell_cells, if_pos ⟨rfl, rfl⟩]

theorem metaWritesFrom_bounds (d : List (Cell × Cell)) (n : Nat) :
    ∀ w ∈ metaWritesFrom n d, (w.1.1 = 1 ∨ w.1.1 = 2) ∧ n + 1 ≤ w.1.2 := by
  induction d generalizing n with
  | nil => intro w hw; cases hw
  | cons kv t ih =>
      intro w hw
      obtain ⟨k0, v0⟩ := kv
      simp only [metaWritesFrom, List.mem_cons] at hw
      rcases hw with rfl | rfl | hw
      · exact ⟨Or.inl rfl, Nat.le_refl _⟩
      · exact ⟨Or.inr rfl, Nat.le_refl _⟩
      · obtain ⟨h1, h2⟩ := ih (n + 1) w hw
        exact ⟨h1, Nat.le_of_succ_le h2⟩

theorem dateWritesFrom_bounds (cs : List Cell) (n : Nat) :
    ∀ w ∈ dateWritesFrom n cs, w.1.1 = 4 ∧ n + 2 ≤ w.1.2 := by
  induction cs generalizing n with
  | nil => intro w hw; cases hw
  | cons c t ih =>
      intro w hw
      cases c with
      | dt d u =>
          simp only [dateWritesFrom, List.mem_cons] at hw
          rcases hw with rfl | hw
          · exact ⟨rfl, Nat.le_refl _⟩
          · obtain ⟨h1, h2⟩ := ih (n + 1) w hw
            exact ⟨h1, Nat.le_of_succ_le h2⟩
      | empty =>
          obtain ⟨h1, h2⟩ := ih (n + 1) w hw
          exact ⟨h1, Nat.le_of_succ_le h2⟩
      | str s =>
          obtain ⟨h1, h2⟩ := ih (n + 1) w hw
          exact ⟨h1, Nat.le_of_succ_le h2⟩
      | num q =>
          obtain ⟨h1, h2⟩ := ih (n + 1) w hw
          exact ⟨h1, Nat.le_of_succ_le h2⟩
      | date d =>
          obtain ⟨h1, h2⟩ := ih (n + 1) w hw
          exact ⟨h1, Nat.le_of_succ_le h2⟩

theorem valWritesFrom_bounds (vs : List Cell) (r n : Nat) :
    ∀ w ∈ valWritesFrom r n vs, w.1.1 = r ∧ n + 2 ≤ w.1.2 := by
  induction vs generalizing n with
  | nil => intro w hw; cases hw
  | cons v t ih =>
      intro w hw
      simp only [valWritesFrom, List.mem_cons] at hw
      rcases hw with rfl | hw
      · exact ⟨rfl, Nat.le_refl _⟩
      · obtain ⟨h1, h2⟩ := ih (n + 1) w hw
        exact ⟨h1, Nat.le_of_succ_le h2⟩

theorem bodyWritesFrom_bounds (rs : List (Cell × List Cell)) (n : Nat) :
    ∀ w ∈ bodyWritesFrom n rs, n + 5 ≤ w.1.1 := by
  induction rs generalizing n with
  | nil => intro w hw; cases hw
  | cons rv t ih =>
      intro w hw
      obtain ⟨id, vals⟩ := rv
      simp only [bodyWritesFrom, List.cons_append, List.mem_cons, List.mem_append] at hw
      rcases hw with rfl | hw | hw
      · exact Nat.le_refl _
      · exact Nat.le_of_eq ((valWritesFrom_bounds vals (n + 5) 0 w hw).1).symm
      · exact Nat.le_of_succ_le (ih (n + 1) w hw)

theorem dateWritesFrom_append (l1 l2 : List Cell) (n : Nat) :
    dateWritesFrom n (l1 ++ l2) =
      dateWritesFrom n l1 ++ dateWritesFrom (n + l1.length) l2 := by
  induction l1 generalizing n with
  | nil => simp [dateWritesFrom]
  | cons c t ih =>
      match c with
      | Cell.dt d u => simp [dateWritesFrom, ih, Nat.add_assoc, Nat.add_comm 1]
      | Cell.empty => simp [dateWritesFrom, ih, Nat.add_assoc, Nat.add_comm 1]
      | Cell.str s => simp [dateWritesFrom, ih, Nat.add_assoc, Nat.add_comm 1]
      | Cell.num q => simp [dateWritesFrom, ih, Nat.add_assoc, Nat.add_comm 1]
      | Cell.date d => simp [dateWritesFrom, ih, Nat.add_assoc, Nat.add_comm 1]

/-- C6, counterexample: writing a table whose columns are Label, DBID and the
date 2018-01-01 leaves row 4 column 2 (column B) untouched and puts the date
header at row 4 column 4 (column D): date headers do not start at column
B. -/
theorem write_date_header_not_column_two :
    (write exT6 exM6 emptySheet).cells 4 2 = Cell.empty ∧
    (write exT6 exM6 emptySheet).cells 4 3 = Cell.empty ∧
    (write exT6 exM6 emptySheet).cells 4 4 = Cell.date 20180101 := by
  exact ⟨by decide, by decide, by decide⟩

/-- A `datetime` header at 0-based column position `i` is written by `write`
to row 4, column `i + 2`, as its calendar date. -/
theorem write_cells_date (df : Df) (md : Dict) (s : Sheet) (i d t : Nat)
    (h : df.cols.get? i = some (Cell.dt d t)) :
    (write df md s).cells 4 (i + 2) = Cell.date d := by
  have hi : i < df.cols.length := by
    by_contra hlt
    rw [List.get?_eq_none.mpr (Nat.le_of_not_lt hlt)] at h
    cases h
  have hget : df.cols.get ⟨i, hi⟩ = Cell.dt d t := by
    have := List.get?_eq_get hi
    rw [this] at h
    exact Option.some.inj h
  have hdecomp : df.cols = df.cols.take i ++ Cell.dt d t :: df.cols.drop (i + 1) := by
    conv_lhs => rw [← List.take_append_drop i df.cols]
    rw [List.drop_eq_get_cons hi, hget]
  have hlen : (df.cols.take i).length = i := by
    rw [List.length_take]
    exact Nat.min_eq_left (Nat.le_of_lt hi)
  show (setCells s (metaWritesFrom 0 md ++ dateWritesFrom 0 df.cols
    ++ bodyWritesFrom 0 df.rows)).cells 4 (i + 2) = Cell.date d
  rw [hdecomp, dateWritesFrom_append, hlen]
  have hstep : dateWritesFrom (0 + i) (Cell.dt d t :: df.cols.drop (i + 1)) =
      ((4, i + 2), Cell.date d) :: dateWritesFrom (i + 1) (df.cols.drop (i + 1)) := by
    simp [dateWritesFrom, Nat.zero_add]
  rw [hstep]
  have hform : metaWritesFrom 0 md ++ (dateWritesFrom 0 (df.cols.take i)
        ++ ((4, i + 2), Cell.date d) :: dateWritesFrom (i + 1) (df.cols.drop (i + 1)))
      ++ bodyWritesFrom 0 df.rows
      = (metaWritesFrom 0 md ++ dateWritesFrom 0 (df.cols.take i))
        ++ ((4, i + 2), Cell.date d)
          :: (dateWritesFrom (i + 1) (df.cols.drop (i + 1)) ++ bodyWritesFrom 0 df.rows) := by
    simp
  rw [hform, setCells_read_last]
  intro w hw
  rcases List.mem_append.mp hw with hw | hw
  · obtain ⟨-, hcol⟩ := dateWritesFrom_bounds _ _ w hw
    intro he
    rw [he] at hcol
    omega
  · have hrow := bodyWritesFrom_bounds _ _ w hw
    intro he
    rw [he] at hrow
    omega

/-- C6 (amended): `write` puts each `datetime`-valued column header into row
4 at column `position + 2`, where `position` is the header's 0-based
position among the table's columns, with the time of day discarded; since
Label and DBID occupy positions 0 and 1, date columns are written from
column 4 (column D) onwards. -/
theorem write_date_header_position (df : Df) (md : Dict) (s : Sheet) (i d t : Nat)
    (h : df.cols.get? i = some (Cell.dt d t)) :
    (write df md s).cells 4 (i + 2) = Cell.date d :=
  write_cells_date df md s i d t h

theorem write_date_header_position_witness :
    (write exT6 exM6 emptySheet).cells 4 4 = Cell.date 20180101 :=
  write_date_header_position exT6 exM6 emptySheet 2 20180101 0 (by decide)

theorem count_const_head (l : List (List Cell)) (x i : Cell)
    (h : ∀ row ∈ l, row.getD 0 Cell.empty = x) :
    (l.map (fun row => row.getD 0 Cell.empty)).count i =
      if x = i then l.length else 0 := by
  induction l with
  | nil => simp
  | cons r t ih =>
      have hr := h r (List.mem_cons_self _ _)
      rw [List.map_cons, List.count_cons,
        ih (fun row hrow => h row (List.mem_cons_of_mem _ hrow)), hr]
      by_cases hx : x = i
      · simp [hx]
      · simp [hx, Ne.symm hx]

theorem count_head_flatMap (rows1 : List (Cell × List Cell))
    (g : Cell × List Cell → List (List Cell)) (i : Cell)
    (hhead : ∀ r ∈ rows1, ∀ row ∈ g r, row.getD 0 Cell.empty = r.1) :
    ((rows1.flatMap g).map (fun row => row.getD 0 Cell.empty)).count i =
      (rows1.map (fun r => if r.1 = i then (g r).length else 0)).sum := by
  induction rows1 with
  | nil => rfl
  | cons r t ih =>
      rw [List.flatMap_cons, List.map_append, List.count_append,
        ih (fun r' hr' => hhead r' (List.mem_cons_of_mem _ hr')),
        count_const_head (g r) r.1 i (hhead r (List.mem_cons_self _ _)), List.map_cons,
        List.sum_cons]

theorem merge_head_count (p a : Df) (hp : p.indexName = Cell.str "ID") (i : Cell) :
    idxCount (add_dates p a) i =
      ((mergeOuter (resetIndexFrame p) (resetIndexFrame a)).rows.map
        (fun r => r.getD 0 Cell.empty)).count i := by
  have hhd : (mergeOuter (resetIndexFrame p) (resetIndexFrame a)).header =
      Cell.str "ID" :: (p.cols
        ++ mergeROnly (resetIndexFrame p) (resetIndexFrame a)) := by
    show (p.indexName :: p.cols) ++ _ = _
    rw [hp]
    rfl
  simp only [idxCount, add_dates, setIndexF, hhd, List.map_map]
  rw [List.findIdx_cons]
  simp only [List.map_map, Function.comp]
  rfl

/-- C2, counterexample: two one-row inputs sharing identifier X but
disagreeing on the Label field: since the merge joins on all shared columns
(ID, Label, DBID), the key tuples differ and identifier X appears twice in
the output, not exactly once. -/
theorem add_dates_label_conflict_duplicates_identifier :
    idxMem exPL (Cell.str "X") ∧ idxMem exAL (Cell.str "X") ∧
    idxCount (add_dates exPL exAL) (Cell.str "X") = 2 := by
  exact ⟨by decide, by decide, by decide⟩

/-- C2 (amended): `add_dates` is an outer join on all columns shared by the
two inputs (Identifier, Label, DBID and any common date columns), not on
Identifier alone.  For identifier-indexed inputs with unique identifiers, an
identifier occurring in at least one input appears exactly once among the
output's rows when it occurs in only one input, or occurs in both with the
two rows agreeing on every shared column; when the inputs disagree on a
shared field for an identifier (for example on Label), that identifier
appears once per side instead. -/
theorem add_dates_identifier_unique (p a : Df)
    (hp : p.indexName = Cell.str "ID") (ha : a.indexName = Cell.str "ID")
    (hpu : (p.rows.map Prod.fst).Nodup) (hau : (a.rows.map Prod.fst).Nodup)
    (i : Cell)
    (hcase : (idxMem p i ∧ ¬ idxMem a i) ∨ (¬ idxMem p i ∧ idxMem a i) ∨
      (idxMem p i ∧ idxMem a i ∧ agreeOnShared p a i)) :
    idxCount (add_dates p a) i = 1 := by
  have hh1 : (resetIndexFrame p).header = Cell.str "ID" :: p.cols := by
    show p.indexName :: p.cols = _
    rw [hp]
  have hh2 : (resetIndexFrame a).header = Cell.str "ID" :: a.cols := by
    show a.indexName :: a.cols = _
    rw [ha]
  -- the head of every join-key tuple is the row's identifier
  have htup : ∀ (x : Cell) (v : List Cell) (y : Cell) (w : List Cell),
      keyTuple (resetIndexFrame a).header
          (mergeKs (resetIndexFrame p) (resetIndexFrame a)) (y :: w) =
        keyTuple (resetIndexFrame p).header
          (mergeKs (resetIndexFrame p) (resetIndexFrame a)) (x :: v) → y = x := by
    intro x v y w he
    have hks : mergeKs (resetIndexFrame p) (resetIndexFrame a) =
        Cell.str "ID" :: p.cols.filter
          (fun c => decide (c ∈ Cell.str "ID" :: a.cols)) := by
      rw [mergeKs, hh1, hh2]
      simp [List.filter_cons]
    rw [hks, hh1, hh2] at he
    simp only [keyTuple, List.map_cons, getCol, if_pos rfl] at he
    exact (List.cons.injEq _ _ _ _ ▸ he).1
  rw [merge_head_count p a hp i]
  have hrows : (mergeOuter (resetIndexFrame p) (resetIndexFrame a)).rows =
      leftJoinRows (resetIndexFrame p) (resetIndexFrame a)
        ++ rightRestRows (resetIndexFrame p) (resetIndexFrame a) := rfl
  rw [hrows, List.map_append, List.count_append]
  -- left block as a flatMap over the table's rows
  have hleft : leftJoinRows (resetIndexFrame p) (resetIndexFrame a) =
      p.rows.flatMap (fun r =>
        if (matchRows (resetIndexFrame p) (resetIndexFrame a) (r.1 :: r.2)).isEmpty then
          [(r.1 :: r.2)
            ++ (mergeROnly (resetIndexFrame p) (resetIndexFrame a)).map (fun _ => Cell.empty)]
        else (matchRows (resetIndexFrame p) (resetIndexFrame a) (r.1 :: r.2)).map
          (fun r2 => (r.1 :: r.2)
            ++ (mergeROnly (resetIndexFrame p) (resetIndexFrame a)).map
              (getCol (resetIndexFrame a).header r2))) := by
    show ((p.rows.map (fun r => r.1 :: r.2)).flatMap _) = _
    rw [List.flatMap_map]
  rw [hleft, count_head_flatMap _ _ i ?hhd]
  case hhd =>
    intro r hr row hrow
    by_cases hms : (matchRows (resetIndexFrame p) (resetIndexFrame a) (r.1 :: r.2)).isEmpty
    · rw [if_pos hms, List.mem_singleton] at hrow
      rw [hrow]
      rfl
    · rw [if_neg hms, List.mem_map] at hrow
      obtain ⟨r2, -, hrow⟩ := hrow
      rw [← hrow]
      rfl
  -- right block: count of unmatched second-table rows carrying identifier i
  have hbhead : ∀ (r2 : List Cell) (x : Cell) (w : List Cell), r2 = x :: w →
      (((resetIndexFrame p).header.map (fun c =>
          if (mergeKs (resetIndexFrame p) (resetIndexFrame a)).contains c then
            getCol (resetIndexFrame a).header r2 c
          else Cell.empty))
        ++ (mergeROnly (resetIndexFrame p) (resetIndexFrame a)).map
            (getCol (resetIndexFrame a).header r2)).getD 0 Cell.empty = x := by
    intro r2 x w hr2
    rw [hh1, List.map_cons, List.cons_append, List.getD_cons_zero]
    have hmem : (mergeKs (resetIndexFrame p) (resetIndexFrame a)).contains
        (Cell.str "ID") = true := by
      refine List.elem_eq_true_of_mem ?_
      rw [mergeKs, hh1, hh2]
      simp
    rw [if_pos hmem, hr2, hh2]
    simp [getCol]
  have hrcount :
      ((rightRestRows (resetIndexFrame p) (resetIndexFrame a)).map
        (fun row => row.getD 0 Cell.empty)).count i =
      a.rows.countP (fun r => (r.1 == i)
        && ! (resetIndexFrame p).rows.any (fun r1 =>
          decide (keyTuple (resetIndexFrame a).header
              (mergeKs (resetIndexFrame p) (resetIndexFrame a)) (r.1 :: r.2) =
            keyTuple (resetIndexFrame p).header
              (mergeKs (resetIndexFrame p) (resetIndexFrame a)) r1))) := by
    rw [rightRestRows]
    rw [show (resetIndexFrame a).rows = a.rows.map (fun r => r.1 :: r.2) from rfl]
    rw [List.filter_map, List.map_map, List.map_map, List.count_eq_countP,
      List.countP_map, List.countP_filter]
    refine List.countP_congr ?_
    intro r hr
    simp only [Function.comp]
    rw [hbhead (r.1 :: r.2) r.1 r.2 rfl]
  rw [hrcount]
  rcases hcase with ⟨hip, hnia⟩ | ⟨hnip, hia⟩ | ⟨hip, hia, hagree⟩
  · -- identifier only in the first table
    have hr0 : List.countP (fun r => (r.1 == i)
        && ! (resetIndexFrame p).rows.any (fun r1 =>
          decide (keyTuple (resetIndexFrame a).header
              (mergeKs (resetIndexFrame p) (resetIndexFrame a)) (r.1 :: r.2) =
            keyTuple (resetIndexFrame p).header
              (mergeKs (resetIndexFrame p) (resetIndexFrame a)) r1))) a.rows = 0 := by
      refine List.countP_eq_zero.mpr ?_
      intro r hr hpr
      rw [Bool.and_eq_true] at hpr
      exact hnia (List.mem_map.mpr ⟨r, hr, beq_iff_eq.mp hpr.1⟩)
    rw [hr0, Nat.add_zero]
    obtain ⟨rp, hrpmem, hrpfst⟩ := List.mem_map.mp hip
    obtain ⟨s, t, hst⟩ := List.append_of_mem hrpmem
    have hnotmem : i ∉ s.map Prod.fst ++ t.map Prod.fst := by
      rw [hst, List.map_append, List.map_cons] at hpu
      have h2 := (List.nodup_cons.mp (List.nodup_middle.mp hpu)).1
      rw [hrpfst] at h2
      exact h2
    have hempty : matchRows (resetIndexFrame p) (resetIndexFrame a) (rp.1 :: rp.2) = [] := by
      refine List.filter_eq_nil_iff.mpr ?_
      intro r2 hr2 hq
      obtain ⟨ra, hramem, hc⟩ := List.mem_map.mp hr2
      rw [decide_eq_true_eq] at hq
      rw [← hc] at hq
      have := htup rp.1 rp.2 ra.1 ra.2 hq
      rw [hrpfst] at this
      exact hnia (List.mem_map.mpr ⟨ra, hramem, this⟩)
    rw [hst, List.map_append, List.map_cons, List.sum_append, List.sum_cons]
    have hszero : ((s.map (fun r =>
        if r.1 = i then
          (if (matchRows (resetIndexFrame p) (resetIndexFrame a) (r.1 :: r.2)).isEmpty = true then
            [r.1 :: r.2 ++ List.map (fun _ => Cell.empty)
              (mergeROnly (resetIndexFrame p) (resetIndexFrame a))]
          else
            List.map (fun r2 => r.1 :: r.2 ++ List.map (getCol (resetIndexFrame a).header r2)
                (mergeROnly (resetIndexFrame p) (resetIndexFrame a)))
              (matchRows (resetIndexFrame p) (resetIndexFrame a) (r.1 :: r.2))).length
        else 0))).sum = 0 := by
      refine List.sum_eq_zero ?_
      intro x hx
      obtain ⟨r, hrs, hxr⟩ := List.mem_map.mp hx
      rw [← hxr, if_neg]
      intro hri
      exact hnotmem (List.mem_append.mpr (Or.inl (List.mem_map.mpr ⟨r, hrs, hri⟩)))
    have htzero : ((t.map (fun r =>
        if r.1 = i then
          (if (matchRows (resetIndexFrame p) (resetIndexFrame a) (r.1 :: r.2)).isEmpty = true then
            [r.1 :: r.2 ++ List.map (fun _ => Cell.empty)
              (mergeROnly (resetIndexFrame p) (resetIndexFrame a))]
          else
            List.map (fun r2 => r.1 :: r.2 ++ List.map (getCol (resetIndexFrame a).header r2)
                (mergeROnly (resetIndexFrame p) (resetIndexFrame a)))
              (matchRows (resetIndexFrame p) (resetIndexFrame a) (r.1 :: r.2))).length
        else 0))).sum = 0 := by
      refine List.sum_eq_zero ?_
      intro x hx
      obtain ⟨r, hrs, hxr⟩ := List.mem_map.mp hx
      rw [← hxr, if_neg]
      intro hri
      exact hnotmem (List.mem_append.mpr (Or.inr (List.mem_map.mpr ⟨r, hrs, hri⟩)))
    rw [hszero, htzero, if_pos hrpfst, hempty]
    simp
  · -- identifier only in the second table
    have hl0 : ((p.rows.map (fun r =>
        if r.1 = i then
          (if (matchRows (resetIndexFrame p) (resetIndexFrame a) (r.1 :: r.2)).isEmpty = true then
            [r.1 :: r.2 ++ List.map (fun _ => Cell.empty)
              (mergeROnly (resetIndexFrame p) (resetIndexFrame a))]
          else
            List.map (fun r2 => r.1 :: r.2 ++ List.map (getCol (resetIndexFrame a).header r2)
                (mergeROnly (resetIndexFrame p) (resetIndexFrame a)))
              (matchRows (resetIndexFrame p) (resetIndexFrame a) (r.1 :: r.2))).length
        else 0))).sum = 0 := by
      refine List.sum_eq_zero ?_
      intro x hx
      obtain ⟨r, hrs, hxr⟩ := List.mem_map.mp hx
      rw [← hxr, if_neg]
      intro hri
      exact hnip (List.mem_map.mpr ⟨r, hrs, hri⟩)
    rw [hl0, Nat.zero_add]
    obtain ⟨sa, hsamem, hsafst⟩ := List.mem_map.mp hia
    obtain ⟨s, t, hst⟩ := List.append_of_mem hsamem
    have hnotmem : i ∉ s.map Prod.fst ++ t.map Prod.fst := by
      rw [hst, List.map_append, List.map_cons] at hau
      have h2 := (List.nodup_cons.mp (List.nodup_middle.mp hau)).1
      rw [hsafst] at h2
      exact h2
    rw [hst, List.countP_append, List.countP_cons]
    have hszero : List.countP (fun r => (r.1 == i)
        && ! (resetIndexFrame p).rows.any (fun r1 =>
          decide (keyTuple (resetIndexFrame a).header
              (mergeKs (resetIndexFrame p) (resetIndexFrame a)) (r.1 :: r.2) =
            keyTuple (resetIndexFrame p).header
              (mergeKs (resetIndexFrame p) (resetIndexFrame a)) r1))) s = 0 := by
      refine List.countP_eq_zero.mpr ?_
      intro r hr hpr
      rw [Bool.and_eq_true] at hpr
      exact hnotmem (List.mem_append.mpr (Or.inl
        (List.mem_map.mpr ⟨r, hr, beq_iff_eq.mp hpr.1⟩)))
    have htzero : List.countP (fun r => (r.1 == i)
        && ! (resetIndexFrame p).rows.any (fun r1 =>
          decide (keyTuple (resetIndexFrame a).header
              (mergeKs (resetIndexFrame p) (resetIndexFrame a)) (r.1 :: r.2) =
            keyTuple (resetIndexFrame p).header
              (mergeKs (resetIndexFrame p) (resetIndexFrame a)) r1))) t = 0 := by
      refine List.countP_eq_zero.mpr ?_
      intro r hr hpr
      rw [Bool.and_eq_true] at hpr
      exact hnotmem (List.mem_append.mpr (Or.inr
        (List.mem_map.mpr ⟨r, hr, beq_iff_eq.mp hpr.1⟩)))
    have hsa : ((sa.1 == i)
        && ! (resetIndexFrame p).rows.any (fun r1 =>
          decide (keyTuple (resetIndexFrame a).header
              (mergeKs (resetIndexFrame p) (resetIndexFrame a)) (sa.1 :: sa.2) =
            keyTuple (resetIndexFrame p).header
              (mergeKs (resetIndexFrame p) (resetIndexFrame a)) r1))) = true := by
      rw [Bool.and_eq_true]
      refine ⟨beq_iff_eq.mpr hsafst, ?_⟩
      rw [Bool.not_eq_true']
      refine Bool.eq_false_iff.mpr ?_
      intro hany
      obtain ⟨r1, hr1mem, hr1q⟩ := List.any_eq_true.mp hany
      obtain ⟨rp, hrpmem, hc⟩ := List.mem_map.mp hr1mem
      rw [decide_eq_true_eq] at hr1q
      rw [← hc] at hr1q
      have := htup rp.1 rp.2 sa.1 sa.2 hr1q
      rw [hsafst] at this
      exact hnip (List.mem_map.mpr ⟨rp, hrpmem, this.symm ▸ this ▸ rfl⟩)
    rw [hszero, htzero, hsa]
    simp
  · -- identifier in both tables, rows agreeing on every shared column
    obtain ⟨rp, hrpmem, hrpfst⟩ := List.mem_map.mp hip
    obtain ⟨sa, hsamem, hsafst⟩ := List.mem_map.mp hia
    -- the right block contributes nothing: every second-table row carrying i
    -- is matched by rp
    have hr0 : List.countP (fun r => (r.1 == i)
        && ! (resetIndexFrame p).rows.any (fun r1 =>
          decide (keyTuple (resetIndexFrame a).header
              (mergeKs (resetIndexFrame p) (resetIndexFrame a)) (r.1 :: r.2) =
            keyTuple (resetIndexFrame p).header
              (mergeKs (resetIndexFrame p) (resetIndexFrame a)) r1))) a.rows = 0 := by
      refine List.countP_eq_zero.mpr ?_
      intro r hr hpr
      rw [Bool.and_eq_true] at hpr
      obtain ⟨hri, hnoany⟩ := hpr
      rw [Bool.not_eq_true'] at hnoany
      have hany : (resetIndexFrame p).rows.any (fun r1 =>
          decide (keyTuple (resetIndexFrame a).header
              (mergeKs (resetIndexFrame p) (resetIndexFrame a)) (r.1 :: r.2) =
            keyTuple (resetIndexFrame p).header
              (mergeKs (resetIndexFrame p) (resetIndexFrame a)) r1)) = true := by
        refine List.any_eq_true.mpr ?_
        refine ⟨rp.1 :: rp.2, List.mem_map.mpr ⟨rp, hrpmem, rfl⟩, ?_⟩
        rw [decide_eq_true_eq]
        exact (hagree rp hrpmem hrpfst r hr (beq_iff_eq.mp hri)).symm
      rw [hany] at hnoany
      cases hnoany
    rw [hr0, Nat.add_zero]
    -- the left block contributes exactly one row, from rp
    obtain ⟨s, t, hst⟩ := List.append_of_mem hrpmem
    have hnotmem : i ∉ s.map Prod.fst ++ t.map Prod.fst := by
      rw [hst, List.map_append, List.map_cons] at hpu
      have h2 := (List.nodup_cons.mp (List.nodup_middle.mp hpu)).1
      rw [hrpfst] at h2
      exact h2
    have hmlen : (matchRows (resetIndexFrame p) (resetIndexFrame a) (rp.1 :: rp.2)).length
        = 1 := by
      rw [matchRows,
        show (resetIndexFrame a).rows = a.rows.map (fun r => r.1 :: r.2) from rfl,
        List.filter_map, List.length_map, ← List.countP_eq_length_filter]
      obtain ⟨s2, t2, hst2⟩ := List.append_of_mem hsamem
      have hnotmem2 : i ∉ s2.map Prod.fst ++ t2.map Prod.fst := by
        rw [hst2, List.map_append, List.map_cons] at hau
        have h2 := (List.nodup_cons.mp (List.nodup_middle.mp hau)).1
        rw [hsafst] at h2
        exact h2
      rw [hst2, List.countP_append, List.countP_cons]
      have hs2 : List.countP ((fun r2 =>
          decide (keyTuple (resetIndexFrame a).header
              (mergeKs (resetIndexFrame p) (resetIndexFrame a)) r2 =
            keyTuple (resetIndexFrame p).header
              (mergeKs (resetIndexFrame p) (resetIndexFrame a)) (rp.1 :: rp.2))) ∘
          (fun r => r.1 :: r.2)) s2 = 0 := by
        refine List.countP_eq_zero.mpr ?_
        intro r hr hq
        simp only [Function.comp, decide_eq_true_eq] at hq
        have := htup rp.1 rp.2 r.1 r.2 hq
        rw [hrpfst] at this
        exact hnotmem2 (List.mem_append.mpr (Or.inl (List.mem_map.mpr ⟨r, hr, this⟩)))
      have ht2 : List.countP ((fun r2 =>
          decide (keyTuple (resetIndexFrame a).header
              (mergeKs (resetIndexFrame p) (resetIndexFrame a)) r2 =
            keyTuple (resetIndexFrame p).header
              (mergeKs (resetIndexFrame p) (resetIndexFrame a)) (rp.1 :: rp.2))) ∘
          (fun r => r.1 :: r.2)) t2 = 0 := by
        refine List.countP_eq_zero.mpr ?_
        intro r hr hq
        simp only [Function.comp, decide_eq_true_eq] at hq
        have := htup rp.1 rp.2 r.1 r.2 hq
        rw [hrpfst] at this
        exact hnotmem2 (List.mem_append.mpr (Or.inr (List.mem_map.mpr ⟨r, hr, this⟩)))
      have hsa2 : decide (keyTuple (resetIndexFrame a).header
            (mergeKs (resetIndexFrame p) (resetIndexFrame a)) (sa.1 :: sa.2) =
          keyTuple (resetIndexFrame p).header
            (mergeKs (resetIndexFrame p) (resetIndexFrame a)) (rp.1 :: rp.2)) = true := by
        rw [decide_eq_true_eq]
        exact (hagree rp hrpmem hrpfst sa hsamem hsafst).symm
      rw [hs2, ht2]
      simp only [Function.comp]
      simp only [hsa2]
      simp
    have hnonempty : (matchRows (resetIndexFrame p) (resetIndexFrame a)
        (rp.1 :: rp.2)).isEmpty = false := by
      obtain ⟨x, hx⟩ := List.length_eq_one.mp hmlen
      rw [hx]
      rfl
    rw [hst, List.map_append, List.map_cons, List.sum_append, List.sum_cons]
    have hszero : ((s.map (fun r =>
        if r.1 = i then
          (if (matchRows (resetIndexFrame p) (resetIndexFrame a) (r.1 :: r.2)).isEmpty = true then
            [r.1 :: r.2 ++ List.map (fun _ => Cell.empty)
              (mergeROnly (resetIndexFrame p) (resetIndexFrame a))]
          else
            List.map (fun r2 => r.1 :: r.2 ++ List.map (getCol (resetIndexFrame a).header r2)
                (mergeROnly (resetIndexFrame p) (resetIndexFrame a)))
              (matchRows (resetIndexFrame p) (resetIndexFrame a) (r.1 :: r.2))).length
        else 0))).sum = 0 := by
      refine List.sum_eq_zero ?_
      intro x hx
      obtain ⟨r, hrs, hxr⟩ := List.mem_map.mp hx
      rw [← hxr, if_neg]
      intro hri
      exact hnotmem (List.mem_append.mpr (Or.inl (List.mem_map.mpr ⟨r, hrs, hri⟩)))
    have htzero : ((t.map (fun r =>
        if r.1 = i then
          (if (matchRows (resetIndexFrame p) (resetIndexFrame a) (r.1 :: r.2)).isEmpty = true then
            [r.1 :: r.2 ++ List.map (fun _ => Cell.empty)
              (mergeROnly (resetIndexFrame p) (resetIndexFrame a))]
          else
            List.map (fun r2 => r.1 :: r.2 ++ List.map (getCol (resetIndexFrame a).header r2)
                (mergeROnly (resetIndexFrame p) (resetIndexFrame a)))
              (matchRows (resetIndexFrame p) (resetIndexFrame a) (r.1 :: r.2))).length
        else 0))).sum = 0 := by
      refine List.sum_eq_zero ?_
      intro x hx
      obtain ⟨r, hrs, hxr⟩ := List.mem_map.mp hx
      rw [← hxr, if_neg]
      intro hri
      exact hnotmem (List.mem_append.mpr (Or.inr (List.mem_map.mpr ⟨r, hrs, hri⟩)))
    rw [hszero, htzero, if_pos hrpfst, if_neg (by rw [hnonempty]; exact Bool.false_ne_true),
      List.length_map, hmlen]
    simp

theorem add_dates_identifier_unique_witness :
    idxCount (add_dates exP1 exA1) (Cell.str "FOUSA1") = 1 :=
  add_dates_identifier_unique exP1 exA1 (by decide) (by decide) (by decide) (by decide)
    (Cell.str "FOUSA1") (Or.inl ⟨by decide, by decide⟩)

theorem list_decomp {α : Type} (l : List α) (i : Nat) (x : α) (h : l.get? i = some x) :
    l = l.take i ++ x :: l.drop (i + 1) ∧ (l.take i).length = i := by
  have hi : i < l.length := by
    by_contra hlt
    rw [List.get?_eq_none.mpr (Nat.le_of_not_lt hlt)] at h
    cases h
  have hget : l.get ⟨i, hi⟩ = x := by
    have := List.get?_eq_get hi
    rw [this] at h
    exact Option.some.inj h
  constructor
  · conv_lhs => rw [← List.take_append_drop i l]
    rw [List.drop_eq_get_cons hi, hget]
  · rw [List.length_take]
    exact Nat.min_eq_left (Nat.le_of_lt hi)

theorem metaWritesFrom_append (M1 M2 : List (Cell × Cell)) (n : Nat) :
    metaWritesFrom n (M1 ++ M2) =
      metaWritesFrom n M1 ++ metaWritesFrom (n + M1.length) M2 := by
  induction M1 generalizing n with
  | nil => simp [metaWritesFrom]
  | cons kv t ih =>
      obtain ⟨k0, v0⟩ := kv
      simp [metaWritesFrom, ih, Nat.add_assoc, Nat.add_comm 1]

theorem metaWritesFrom_col_le (M : List (Cell × Cell)) (n : Nat) :
    ∀ w ∈ metaWritesFrom n M, w.1.2 ≤ n + M.length := by
  induction M generalizing n with
  | nil => intro w hw; cases hw
  | cons kv t ih =>
      intro w hw
      obtain ⟨k0, v0⟩ := kv
      simp only [metaWritesFrom, List.mem_cons] at hw
      rcases hw with rfl | rfl | hw
      · simp only [List.length_cons]
        omega
      · simp only [List.length_cons]
        omega
      · have := ih (n + 1) w hw
        simp only [List.length_cons]
        omega

theorem valWritesFrom_append (v1 v2 : List Cell) (r n : Nat) :
    valWritesFrom r n (v1 ++ v2) =
      valWritesFrom r n v1 ++ valWritesFrom r (n + v1.length) v2 := by
  induction v1 generalizing n with
  | nil => simp [valWritesFrom]
  | cons v t ih => simp [valWritesFrom, ih, Nat.add_assoc, Nat.add_comm 1]

theorem bodyWritesFrom_append (R1 R2 : List (Cell × List Cell)) (n : Nat) :
    bodyWritesFrom n (R1 ++ R2) =
      bodyWritesFrom n R1 ++ bodyWritesFrom (n + R1.length) R2 := by
  induction R1 generalizing n with
  | nil => simp [bodyWritesFrom]
  | cons rv t ih =>
      obtain ⟨id, vals⟩ := rv
      simp [bodyWritesFrom, ih, Nat.add_assoc, Nat.add_comm 1]

theorem setCells_maxCol_mono (s : Sheet) (ws : List Wr) :
    s.maxCol ≤ (setCells s ws).maxCol := by
  induction ws generalizing s with
  | nil => exact Nat.le_refl _
  | cons w t ih =>
      show s.maxCol ≤ (setCells (setCell s w.1.1 w.1.2 w.2) t).maxCol
      refine Nat.le_trans ?_ (ih (setCell s w.1.1 w.1.2 w.2))
      exact Nat.le_max_left _ _

theorem setCells_maxCol_ge (s : Sheet) (ws : List Wr) :
    ∀ w ∈ ws, w.1.2 ≤ (setCells s ws).maxCol := by
  induction ws generalizing s with
  | nil => intro w hw; cases hw
  | cons w0 t ih =>
      intro w hw
      cases hw with
      | head =>
          show w0.1.2 ≤ (setCells (setCell s w0.1.1 w0.1.2 w0.2) t).maxCol
          refine Nat.le_trans ?_ (setCells_maxCol_mono (setCell s w0.1.1 w0.1.2 w0.2) t)
          exact Nat.le_max_right _ _
      | tail _ hw =>
          exact ih (setCell s w0.1.1 w0.1.2 w0.2) w hw

theorem write_cells_meta_key (T : Df) (M : Dict) (j : Nat) (kv : Cell × Cell)
    (h : List.get? M j = some kv) :
    (write T M emptySheet).cells 1 (j + 1) = kv.1 := by
  obtain ⟨hdec, hlen⟩ := list_decomp M j kv h
  show (setCells emptySheet (metaWritesFrom 0 M ++ dateWritesFrom 0 T.cols
    ++ bodyWritesFrom 0 T.rows)).cells 1 (j + 1) = kv.1
  rw [hdec, metaWritesFrom_append, hlen]
  have hsh : (metaWritesFrom 0 (List.take j M)
      ++ metaWritesFrom (0 + j) (kv :: List.drop (j + 1) M))
      ++ dateWritesFrom 0 T.cols ++ bodyWritesFrom 0 T.rows
      = metaWritesFrom 0 (List.take j M) ++ ((1, j + 1), kv.1) ::
        (((2, j + 1), kv.2) :: (metaWritesFrom (j + 1) (List.drop (j + 1) M)
          ++ (dateWritesFrom 0 T.cols ++ bodyWritesFrom 0 T.rows))) := by
    obtain ⟨k0, v0⟩ := kv
    simp [metaWritesFrom, List.append_assoc]
  rw [hsh, setCells_read_last]
  intro w hw
  rcases List.mem_cons.mp hw with rfl | hw
  · intro he
    rw [Prod.mk.injEq] at he
    omega
  rcases List.mem_append.mp hw with hw | hw
  · have hb := (metaWritesFrom_bounds _ _ w hw).2
    intro he
    have h2 : w.1.2 = j + 1 := by rw [he]
    omega
  rcases List.mem_append.mp hw with hw | hw
  · have hb := (dateWritesFrom_bounds _ _ w hw).1
    intro he
    have h1 : w.1.1 = 1 := by rw [he]
    omega
  · have hb := bodyWritesFrom_bounds _ _ w hw
    intro he
    have h1 : w.1.1 = 1 := by rw [he]
    omega

theorem write_cells_meta_val (T : Df) (M : Dict) (j : Nat) (kv : Cell × Cell)
    (h : List.get? M j = some kv) :
    (write T M emptySheet).cells 2 (j + 1) = kv.2 := by
  obtain ⟨hdec, hlen⟩ := list_decomp M j kv h
  show (setCells emptySheet (metaWritesFrom 0 M ++ dateWritesFrom 0 T.cols
    ++ bodyWritesFrom 0 T.rows)).cells 2 (j + 1) = kv.2
  rw [hdec, metaWritesFrom_append, hlen]
  have hsh : (metaWritesFrom 0 (List.take j M)
      ++ metaWritesFrom (0 + j) (kv :: List.drop (j + 1) M))
      ++ dateWritesFrom 0 T.cols ++ bodyWritesFrom 0 T.rows
      = (metaWritesFrom 0 (List.take j M) ++ [((1, j + 1), kv.1)])
        ++ ((2, j + 1), kv.2) :: (metaWritesFrom (j + 1) (List.drop (j + 1) M)
          ++ (dateWritesFrom 0 T.cols ++ bodyWritesFrom 0 T.rows)) := by
    obtain ⟨k0, v0⟩ := kv
    simp [metaWritesFrom, List.append_assoc]
  rw [hsh, setCells_read_last]
  intro w hw
  rcases List.mem_append.mp hw with hw | hw
  · have hb := (metaWritesFrom_bounds _ _ w hw).2
    intro he
    have h2 : w.1.2 = j + 1 := by rw [he]
    omega
  rcases List.mem_append.mp hw with hw | hw
  · have hb := (dateWritesFrom_bounds _ _ w hw).1
    intro he
    have h1 : w.1.1 = 2 := by rw [he]
    omega
  · have hb := bodyWritesFrom_bounds _ _ w hw
    intro he
    have h1 : w.1.1 = 2 := by rw [he]
    omega

theorem write_cells_row1_beyond (T : Df) (M : Dict) (c : Nat) (h : M.length < c) :
    (write T M emptySheet).cells 1 c = Cell.empty := by
  show (setCells emptySheet (metaWritesFrom 0 M ++ dateWritesFrom 0 T.cols
    ++ bodyWritesFrom 0 T.rows)).cells 1 c = Cell.empty
  rw [setCells_cells_of_not_mem]
  · rfl
  intro w hw
  rcases List.mem_append.mp hw with hw | hw
  · rcases List.mem_append.mp hw with hw | hw
    · have hb := metaWritesFrom_col_le _ _ w hw
      intro he
      have h2 : w.1.2 = c := by rw [he]
      omega
    · have hb := (dateWritesFrom_bounds _ _ w hw).1
      intro he
      have h1 : w.1.1 = 1 := by rw [he]
      omega
  · have hb := bodyWritesFrom_bounds _ _ w hw
    intro he
    have h1 : w.1.1 = 1 := by rw [he]
    omega

theorem write_cells_body_id (T : Df) (M : Dict) (i : Nat) (rv : Cell × List Cell)
    (h : T.rows.get? i = some rv) :
    (write T M emptySheet).cells (i + 5) 1 = rv.1 := by
  obtain ⟨hdec, hlen⟩ := list_decomp T.rows i rv h
  show (setCells emptySheet (metaWritesFrom 0 M ++ dateWritesFrom 0 T.cols
    ++ bodyWritesFrom 0 T.rows)).cells (i + 5) 1 = rv.1
  rw [hdec, bodyWritesFrom_append, hlen]
  have hsh : metaWritesFrom 0 M ++ dateWritesFrom 0 T.cols
      ++ (bodyWritesFrom 0 (List.take i T.rows)
        ++ bodyWritesFrom (0 + i) (rv :: List.drop (i + 1) T.rows))
      = ((metaWritesFrom 0 M ++ dateWritesFrom 0 T.cols)
          ++ bodyWritesFrom 0 (List.take i T.rows))
        ++ ((i + 5, 1), rv.1) :: (valWritesFrom (i + 5) 0 rv.2
          ++ bodyWritesFrom (i + 1) (List.drop (i + 1) T.rows)) := by
    obtain ⟨id0, vals0⟩ := rv
    simp [bodyWritesFrom, List.append_assoc]
  rw [hsh, setCells_read_last]
  intro w hw
  rcases List.mem_append.mp hw with hw | hw
  · have hb := (valWritesFrom_bounds _ _ _ w hw).2
    intro he
    have h2 : w.1.2 = 1 := by rw [he]
    omega
  · have hb := bodyWritesFrom_bounds _ _ w hw
    intro he
    have h1 : w.1.1 = i + 5 := by rw [he]
    omega

theorem write_cells_body_val (T : Df) (M : Dict) (i j : Nat) (rv : Cell × List Cell)
    (v : Cell) (hrow : T.rows.get? i = some rv) (hval : rv.2.get? j = some v) :
    (write T M emptySheet).cells (i + 5) (j + 2) = v := by
  obtain ⟨hdec, hlen⟩ := list_decomp T.rows i rv hrow
  obtain ⟨hdec2, hlen2⟩ := list_decomp rv.2 j v hval
  show (setCells emptySheet (metaWritesFrom 0 M ++ dateWritesFrom 0 T.cols
    ++ bodyWritesFrom 0 T.rows)).cells (i + 5) (j + 2) = v
  rw [hdec, bodyWritesFrom_append, hlen]
  have hsh : metaWritesFrom 0 M ++ dateWritesFrom 0 T.cols
      ++ (bodyWritesFrom 0 (List.take i T.rows)
        ++ bodyWritesFrom (0 + i) (rv :: List.drop (i + 1) T.rows))
      = (((metaWritesFrom 0 M ++ dateWritesFrom 0 T.cols)
          ++ bodyWritesFrom 0 (List.take i T.rows))
          ++ (((i + 5, 1), rv.1) :: valWritesFrom (i + 5) 0 (List.take j rv.2)))
        ++ ((i + 5, j + 2), v) :: (valWritesFrom (i + 5) (j + 1) (List.drop (j + 1) rv.2)
          ++ bodyWritesFrom (i + 1) (List.drop (i + 1) T.rows)) := by
    obtain ⟨id0, vals0⟩ := rv
    simp only at hdec2 hlen2
    conv_lhs => rw [bodyWritesFrom]
    rw [show valWritesFrom (0 + i + 5) 0 vals0
        = valWritesFrom (0 + i + 5) 0 (List.take j vals0 ++ v :: List.drop (j + 1) vals0)
      from by rw [← hdec2]]
    rw [valWritesFrom_append, hlen2]
    simp [valWritesFrom, List.append_assoc]
  rw [hsh, setCells_read_last]
  intro w hw
  rcases List.mem_append.mp hw with hw | hw
  · have hb := (valWritesFrom_bounds _ _ _ w hw).2
    intro he
    have h2 : w.1.2 = j + 2 := by rw [he]
    omega
  · have hb := bodyWritesFrom_bounds _ _ w hw
    intro he
    have h1 : w.1.1 = i + 5 := by rw [he]
    omega

theorem Dict.insert_of_not_contains (d : Dict) (k v : Cell)
    (h : ¬ Dict.contains d k = true) :
    Dict.insert d k v = d ++ [(k, v)] := by
  induction d with
  | nil => rfl
  | cons kv t ih =>
      obtain ⟨k0, v0⟩ := kv
      simp only [Dict.contains, Bool.or_eq_true, decide_eq_true_eq, not_or] at h
      rw [Dict.insert, if_neg h.1]
      rw [ih h.2]
      rfl

theorem Dict.contains_append (d1 d2 : Dict) (k : Cell) :
    Dict.contains (d1 ++ d2) k = (Dict.contains d1 k || Dict.contains d2 k) := by
  induction d1 with
  | nil => rfl
  | cons kv t ih =>
      obtain ⟨k0, v0⟩ := kv
      show Dict.contains ((k0, v0) :: (t ++ d2)) k = _
      rw [Dict.contains, ih, Dict.contains]
      cases decide (k0 = k) <;> simp

theorem metaOf_fold (W : Sheet) (M : List (Cell × Cell)) : ∀ (off : Nat) (acc : Dict),
    (∀ j kv, List.get? M j = some kv →
      W.cells 1 (off + j + 1) = kv.1 ∧ W.cells 2 (off + j + 1) = kv.2) →
    (∀ kv ∈ M, ∃ s, kv.1 = Cell.str s ∧ s ≠ "") →
    (M.map Prod.fst).Nodup →
    (∀ kv ∈ M, ¬ Dict.contains acc kv.1 = true) →
    (List.range' off M.length).foldl (fun m c =>
      if (W.cells 1 (c + 1)).truthy then
        Dict.insert m (W.cells 1 (c + 1)) (W.cells 2 (c + 1)) else m) acc
    = acc ++ M := by
  induction M with
  | nil =>
      intro off acc _ _ _ _
      simp
  | cons kv t ih =>
      intro off acc hcells hkeys hnodup hfresh
      show ((off :: List.range' (off + 1) t.length).foldl _ acc) = acc ++ kv :: t
      rw [List.foldl_cons]
      have hc0 := hcells 0 kv rfl
      obtain ⟨s, hs, hsne⟩ := hkeys kv (List.mem_cons_self _ _)
      have htruthy : (W.cells 1 (off + 1)).truthy = true := by
        have : W.cells 1 (off + 1) = kv.1 := hc0.1
        rw [this, hs]
        simp [Cell.truthy, hsne]
      rw [if_pos htruthy,
        show W.cells 1 (off + 1) = kv.1 from hc0.1,
        show W.cells 2 (off + 1) = kv.2 from hc0.2,
        Dict.insert_of_not_contains _ _ _ (hfresh kv (List.mem_cons_self _ _))]
      rw [ih (off + 1) (acc ++ [kv]) ?h1 ?h2 ?h3 ?h4]
      · rw [List.append_assoc]
        rfl
      case h1 =>
        intro j kv' hj
        have := hcells (j + 1) kv' hj
        rw [show off + 1 + j + 1 = off + (j + 1) + 1 from by omega]
        exact this
      case h2 =>
        intro kv' hkv'
        exact hkeys kv' (List.mem_cons_of_mem _ hkv')
      case h3 => exact (List.nodup_cons.mp hnodup).2
      case h4 =>
        intro kv' hkv'
        rw [Dict.contains_append]
        simp only [Bool.or_eq_true, not_or]
        refine ⟨hfresh kv' (List.mem_cons_of_mem _ hkv'), ?_⟩
        show ¬ Dict.contains [kv] kv'.1 = true
        simp only [Dict.contains, Bool.or_eq_true, decide_eq_true_eq, not_or]
        refine ⟨?_, by simp [Dict.contains]⟩
        intro he
        exact (List.nodup_cons.mp hnodup).1
          (he ▸ List.mem_map.mpr ⟨kv', hkv', rfl⟩)

theorem metaWritesFrom_last_col (M : List (Cell × Cell)) (hne : M ≠ []) (n : Nat) :
    ∃ w ∈ metaWritesFrom n M, w.1.2 = n + M.length := by
  induction M generalizing n with
  | nil => exact absurd rfl hne
  | cons kv t ih =>
      obtain ⟨k0, v0⟩ := kv
      by_cases ht : t = []
      · subst ht
        exact ⟨((1, n + 1), k0), List.mem_cons_self _ _, by simp⟩
      · obtain ⟨w, hw, hcol⟩ := ih ht (n + 1)
        refine ⟨w, ?_, ?_⟩
        · simp only [metaWritesFrom, List.mem_cons]
          exact Or.inr (Or.inr hw)
        · rw [hcol]
          simp only [List.length_cons]
          omega

theorem write_maxCol_ge (T : Df) (M : Dict) :
    M.length ≤ (write T M emptySheet).maxCol := by
  by_cases hne : M = []
  · subst hne
    exact Nat.zero_le _
  obtain ⟨w, hw, hcol⟩ := metaWritesFrom_last_col M hne 0
  have := setCells_maxCol_ge emptySheet
    (metaWritesFrom 0 M ++ dateWritesFrom 0 T.cols ++ bodyWritesFrom 0 T.rows) w
    (List.mem_append.mpr (Or.inl (List.mem_append.mpr (Or.inl hw))))
  rw [hcol] at this
  rw [Nat.zero_add] at this
  exact this

theorem metaOf_write (T : Df) (M : Dict)
    (hkeys : ∀ kv ∈ M, ∃ s, kv.1 = Cell.str s ∧ s ≠ "")
    (hnodup : (M.map Prod.fst).Nodup) :
    metaOf (write T M emptySheet) = M := by
  have hcol := write_maxCol_ge T M
  rw [metaOf]
  have hsplit : List.range (write T M emptySheet).maxCol
      = List.range' 0 M.length
        ++ List.range' M.length ((write T M emptySheet).maxCol - M.length) := by
    rw [List.range_eq_range']
    have happ := List.range'_append 0 M.length
      ((write T M emptySheet).maxCol - M.length) 1
    simp only [Nat.zero_add, Nat.one_mul] at happ
    have hmc : (write T M emptySheet).maxCol
        = (write T M emptySheet).maxCol - M.length + M.length := by omega
    conv_lhs => rw [hmc]
    exact happ.symm
  rw [hsplit, List.foldl_append]
  rw [metaOf_fold (write T M emptySheet) M 0 [] ?hc hkeys hnodup (by intro kv _; simp [Dict.contains])]
  case hc =>
    intro j kv hj
    simp only [Nat.zero_add]
    exact ⟨write_cells_meta_key T M j kv hj, write_cells_meta_val T M j kv hj⟩
  rw [List.nil_append]
  have hrest : ∀ (cs : List Nat) (acc : Dict), (∀ c ∈ cs, M.length ≤ c) →
      cs.foldl (fun m c =>
        if ((write T M emptySheet).cells 1 (c + 1)).truthy then
          Dict.insert m ((write T M emptySheet).cells 1 (c + 1))
            ((write T M emptySheet).cells 2 (c + 1)) else m) acc = acc := by
    intro cs
    induction cs with
    | nil => intro acc _; rfl
    | cons c t ih =>
        intro acc hge
        rw [List.foldl_cons]
        have hcell : (write T M emptySheet).cells 1 (c + 1) = Cell.empty :=
          write_cells_row1_beyond T M (c + 1)
            (Nat.lt_succ_of_le (hge c (List.mem_cons_self _ _)))
        rw [hcell]
        show t.foldl _ acc = acc
        exact ih acc (fun c' hc' => hge c' (List.mem_cons_of_mem _ hc'))
  rw [hrest]
  intro c hc
  rw [List.mem_range'] at hc
  obtain ⟨i, -, hci⟩ := hc
  omega

theorem char_upper_facts (m : Nat) (h : m < 26) :
    (Char.ofNat (65 + m)).isDigit = false ∧ (Char.ofNat (65 + m)).toNat = 65 + m ∧
      Char.ofNat (65 + m) ≠ ':' := by
  interval_cases m <;> exact ⟨by decide, by decide, by decide⟩

theorem char_digit_facts (n : Nat) (h : n < 10) :
    (Char.ofNat (48 + n)).isDigit = true ∧ (Char.ofNat (48 + n)).toNat = 48 + n := by
  interval_cases n <;> exact ⟨by decide, by decide⟩

theorem digit_ne_colon (c : Char) (h : c.isDigit = true) : c ≠ ':' := by
  intro he
  rw [he] at h
  exact absurd h (by decide)

theorem natDigitsAux_ne_nil (fuel n : Nat) (h : n < fuel) : natDigitsAux fuel n ≠ [] := by
  cases fuel with
  | zero => omega
  | succ f =>
      rw [natDigitsAux]
      by_cases h10 : n < 10
      · rw [if_pos h10]
        simp
      · rw [if_neg h10]
        simp

theorem natDigitsAux_digits (fuel : Nat) : ∀ n, n < fuel →
    ∀ c ∈ natDigitsAux fuel n, c.isDigit = true := by
  induction fuel with
  | zero => intro n h; omega
  | succ f ih =>
      intro n h c hc
      rw [natDigitsAux] at hc
      by_cases h10 : n < 10
      · rw [if_pos h10, List.mem_singleton] at hc
        rw [hc]
        exact (char_digit_facts n h10).1
      · rw [if_neg h10, List.mem_append] at hc
        rcases hc with hc | hc
        · exact ih (n / 10) (by omega) c hc
        · rw [List.mem_singleton] at hc
          rw [hc]
          exact (char_digit_facts (n % 10) (Nat.mod_lt _ (by omega))).1

theorem natDigitsAux_foldl (fuel : Nat) : ∀ n k, n < fuel →
    (natDigitsAux fuel n).foldl (fun acc c => acc * 10 + (c.toNat - 48)) k =
      k * 10 ^ (natDigitsAux fuel n).length + n := by
  induction fuel with
  | zero => intro n k h; omega
  | succ f ih =>
      intro n k h
      rw [natDigitsAux]
      by_cases h10 : n < 10
      · rw [if_pos h10]
        rw [List.foldl_cons, List.foldl_nil, (char_digit_facts n h10).2]
        simp
        try omega
      · rw [if_neg h10]
        rw [List.foldl_append, ih (n / 10) k (by omega), List.foldl_cons, List.foldl_nil,
          (char_digit_facts (n % 10) (Nat.mod_lt _ (by omega))).2, List.length_append,
          List.length_singleton, Nat.pow_succ]
        have hmod : n / 10 * 10 + n % 10 = n := by
          have := Nat.div_add_mod n 10
          omega
        have h48 : 48 + n % 10 - 48 = n % 10 := by omega
        rw [h48]
        ring_nf
        omega

theorem pyNat_natDigits (n : Nat) : pyNat (natDigits n) = some n := by
  rw [pyNat, if_pos]
  · rw [natDigits, natDigitsAux_foldl (n + 1) n 0 (Nat.lt_succ_self n)]
    simp
  refine ⟨natDigitsAux_ne_nil (n + 1) n (Nat.lt_succ_self n), ?_⟩
  rw [List.all_eq_true]
  exact natDigitsAux_digits (n + 1) n (Nat.lt_succ_self n)

theorem natDigits_digits (n : Nat) : ∀ c ∈ natDigits n, c.isDigit = true :=
  natDigitsAux_digits (n + 1) n (Nat.lt_succ_self n)

theorem colLetterAux_chars (fuel : Nat) : ∀ n, n < fuel →
    ∀ c ∈ (colLetterAux fuel n).data,
      c.isDigit = false ∧ c.toNat ≥ 65 ∧ c ≠ ':' := by
  induction fuel with
  | zero => intro n h; omega
  | succ f ih =>
      intro n h c hc
      rw [colLetterAux] at hc
      by_cases h0 : n = 0
      · rw [if_pos h0] at hc
        cases hc
      · rw [if_neg h0, String.data_append] at hc
        rcases List.mem_append.mp hc with hc | hc
        · exact ih ((n - 1) / 26) (by omega) c hc
        · have hsing : (String.singleton (Char.ofNat (65 + (n - 1) % 26))).data
              = [Char.ofNat (65 + (n - 1) % 26)] := rfl
          rw [hsing, List.mem_singleton] at hc
          obtain ⟨h1, h2, h3⟩ := char_upper_facts ((n - 1) % 26) (Nat.mod_lt _ (by omega))
          rw [hc]
          exact ⟨h1, by omega, h3⟩

theorem colVal_append_singleton (cs : List Char) (c : Char) :
    colVal (cs ++ [c]) = colVal cs * 26 + (c.toNat - 64) := by
  rw [colVal, List.foldl_append, List.foldl_cons, List.foldl_nil]
  rfl

theorem colVal_colLetterAux (fuel : Nat) : ∀ n, n < fuel →
    colVal (colLetterAux fuel n).data = n := by
  induction fuel with
  | zero => intro n h; omega
  | succ f ih =>
      intro n h
      rw [colLetterAux]
      by_cases h0 : n = 0
      · rw [if_pos h0, h0]
        rfl
      · rw [if_neg h0, String.data_append,
          show (String.singleton (Char.ofNat (65 + (n - 1) % 26))).data
            = [Char.ofNat (65 + (n - 1) % 26)] from rfl,
          colVal_append_singleton, ih ((n - 1) / 26) (by omega),
          (char_upper_facts ((n - 1) % 26) (Nat.mod_lt _ (by omega))).2.1]
        have := Nat.div_add_mod (n - 1) 26
        omega

theorem colLetter_chars (n : Nat) :
    ∀ c ∈ (colLetter n).data, c.isDigit = false ∧ c.toNat ≥ 65 ∧ c ≠ ':' :=
  colLetterAux_chars (n + 1) n (Nat.lt_succ_self n)

theorem colVal_colLetter (n : Nat) : colVal (colLetter n).data = n :=
  colVal_colLetterAux (n + 1) n (Nat.lt_succ_self n)

theorem pySplit_ne_nil (sep : Char) (cs : List Char) : pySplit sep cs ≠ [] := by
  cases cs with
  | nil => simp [pySplit]
  | cons c t =>
      rw [pySplit]
      by_cases hc : c = sep
      · rw [if_pos hc]
        simp
      · rw [if_neg hc]
        simp

theorem pySplit_no_sep (sep : Char) (cs : List Char) (h : ∀ c ∈ cs, c ≠ sep) :
    pySplit sep cs = [cs] := by
  induction cs with
  | nil => rfl
  | cons c t ih =>
      rw [pySplit, if_neg (h c (List.mem_cons_self _ _)),
        ih (fun c' hc' => h c' (List.mem_cons_of_mem _ hc'))]
      rfl

theorem pySplit_pre (sep : Char) (pre post : List Char) (h : ∀ c ∈ pre, c ≠ sep) :
    pySplit sep (pre ++ sep :: post) = pre :: pySplit sep post := by
  induction pre with
  | nil =>
      rw [List.nil_append, pySplit, if_pos rfl]
  | cons c t ih =>
      rw [List.cons_append, pySplit, if_neg (h c (List.mem_cons_self _ _)),
        ih (fun c' hc' => h c' (List.mem_cons_of_mem _ hc'))]
      rfl

theorem takeWhile_append_all {p : Char → Bool} (l1 l2 : List Char)
    (h : ∀ c ∈ l1, p c = true) :
    (l1 ++ l2).takeWhile p = l1 ++ l2.takeWhile p := by
  induction l1 with
  | nil => rfl
  | cons c t ih =>
      rw [List.cons_append, List.takeWhile_cons, h c (List.mem_cons_self _ _),
        ih (fun c' hc' => h c' (List.mem_cons_of_mem _ hc'))]
      rfl

theorem takeWhile_none {p : Char → Bool} (l : List Char) (h : ∀ c ∈ l, p c = false) :
    l.takeWhile p = [] := by
  cases l with
  | nil => rfl
  | cons c t =>
      rw [List.takeWhile_cons, h c (List.mem_cons_self _ _)]
      simp

theorem dropWhile_append_all {p : Char → Bool} (l1 l2 : List Char)
    (h : ∀ c ∈ l1, p c = true) :
    (l1 ++ l2).dropWhile p = l2.dropWhile p := by
  induction l1 with
  | nil => rfl
  | cons c t ih =>
      rw [List.cons_append, List.dropWhile_cons, h c (List.mem_cons_self _ _)]
      simp only [if_true]
      exact ih (fun c' hc' => h c' (List.mem_cons_of_mem _ hc'))

theorem dropWhile_none {p : Char → Bool} (l : List Char) (h : ∀ c ∈ l, p c = false) :
    l.dropWhile p = l := by
  cases l with
  | nil => rfl
  | cons c t =>
      rw [List.dropWhile_cons, h c (List.mem_cons_self _ _)]
      simp

theorem strOfNat_data (n : Nat) : (strOfNat n).data = natDigits n := rfl

theorem get_metadata_write (T : Df) (M : Dict)
    (hkeys : ∀ kv ∈ M, ∃ s, kv.1 = Cell.str s ∧ s ≠ "")
    (hnodup : (M.map Prod.fst).Nodup)
    (hL : Dict.find? M (Cell.str "MPI_LABELRANGE") =
      some (Cell.str ("B5:B" ++ strOfNat (T.rows.length + 4))))
    (hD : Dict.find? M (Cell.str "MPI_PORTFOLIODATERANGE") =
      some (Cell.str ("D4:" ++ colLetter (T.cols.length + 1) ++ "4"))) :
    get_metadata (write T M emptySheet) =
      Except.ok (M, ['A', '4'],
        (colLetter (T.cols.length + 1)).data ++ natDigits (T.rows.length + 4)) := by
  have hm := metaOf_write T M hkeys hnodup
  have hsplitL : pySplit ':' ("B5:B" ++ strOfNat (T.rows.length + 4)).data
      = [['B', '5'], 'B' :: natDigits (T.rows.length + 4)] := by
    have hshape : ("B5:B" ++ strOfNat (T.rows.length + 4)).data
        = ['B', '5'] ++ ':' :: ('B' :: natDigits (T.rows.length + 4)) := by
      rw [String.data_append, strOfNat_data]
      rfl
    rw [hshape, pySplit_pre ':' ['B', '5'] _ (by decide)]
    rw [pySplit_no_sep]
    intro c hc
    rcases List.mem_cons.mp hc with rfl | hc
    · decide
    · exact digit_ne_colon c (natDigits_digits _ c hc)
  have hsplitD : pySplit ':' ("D4:" ++ colLetter (T.cols.length + 1) ++ "4").data
      = [['D', '4'], (colLetter (T.cols.length + 1)).data ++ ['4']] := by
    have hshape : ("D4:" ++ colLetter (T.cols.length + 1) ++ "4").data
        = ['D', '4'] ++ ':' :: ((colLetter (T.cols.length + 1)).data ++ ['4']) := by
      rw [String.data_append, String.data_append,
        show "D4:".data = ['D', '4', ':'] from rfl,
        show "4".data = ['4'] from rfl]
      simp
    rw [hshape, pySplit_pre ':' ['D', '4'] _ (by decide)]
    rw [pySplit_no_sep]
    intro c hc
    rcases List.mem_append.mp hc with hc | hc
    · exact (colLetter_chars _ c hc).2.2
    · rw [List.mem_singleton] at hc
      rw [hc]
      decide
  have htake : ((colLetter (T.cols.length + 1)).data ++ ['4']).takeWhile
      (fun ch => ! ch.isDigit) = (colLetter (T.cols.length + 1)).data := by
    rw [takeWhile_append_all]
    · rw [takeWhile_none, List.append_nil]
      intro c hc
      rw [List.mem_singleton] at hc
      rw [hc]
      decide
    · intro c hc
      rw [(colLetter_chars _ c hc).1]
      rfl
  rw [get_metadata]
  simp only [hm, hL, hD, hsplitL, hsplitD]
  rw [show pyNat (List.drop 1 ['B', '5']) = some 5 from by decide]
  simp only [htake]
  rfl

theorem sheetRegion_write (T : Df) (M : Dict) :
    sheetRegion (write T M emptySheet) ['A', '4']
        ((colLetter (T.cols.length + 1)).data ++ natDigits (T.rows.length + 4))
      = (List.range' 0 (T.rows.length + 1)).map (fun i =>
          (List.range' 0 (T.cols.length + 1)).map (fun j =>
            (write T M emptySheet).cells (4 + i) (1 + j))) := by
  have hp0 : parseRef ['A', '4'] = (1, 4) := by decide
  have hp1 : parseRef ((colLetter (T.cols.length + 1)).data
      ++ natDigits (T.rows.length + 4)) = (T.cols.length + 1, T.rows.length + 4) := by
    rw [parseRef]
    have htk : ((colLetter (T.cols.length + 1)).data
        ++ natDigits (T.rows.length + 4)).takeWhile (fun c => ! c.isDigit)
        = (colLetter (T.cols.length + 1)).data := by
      rw [takeWhile_append_all]
      · rw [takeWhile_none, List.append_nil]
        intro c hc
        rw [natDigits_digits _ c hc]
        rfl
      · intro c hc
        rw [(colLetter_chars _ c hc).1]
        rfl
    have hdp : ((colLetter (T.cols.length + 1)).data
        ++ natDigits (T.rows.length + 4)).dropWhile (fun c => ! c.isDigit)
        = natDigits (T.rows.length + 4) := by
      rw [dropWhile_append_all]
      · rw [dropWhile_none]
        intro c hc
        rw [natDigits_digits _ c hc]
        rfl
      · intro c hc
        rw [(colLetter_chars _ c hc).1]
        rfl
    rw [htk, hdp, colVal_colLetter, pyNat_natDigits]
    rfl
  rw [sheetRegion, hp0, hp1]
  simp only
  rw [show T.rows.length + 4 + 1 - 4 = T.rows.length + 1 from by omega,
    show T.cols.length + 1 + 1 - 1 = T.cols.length + 1 from by omega,
    List.range_eq_range', List.range_eq_range']

theorem cols_get?_dates (T : Df) (dc : List Cell)
    (hcols : T.cols = Cell.str "Label" :: Cell.str "DBID" :: dc) (u : Nat) (c : Cell)
    (hcu : dc.get? u = some c) : T.cols.get? (2 + u) = some c := by
  rw [hcols, show 2 + u = u + 1 + 1 from by omega, List.get?_cons_succ, List.get?_cons_succ]
  exact hcu

theorem get_portfolio_write (T : Df) (M : Dict) (dc : List Cell)
    (hcols : T.cols = Cell.str "Label" :: Cell.str "DBID" :: dc)
    (hdc : ∀ c ∈ dc, ∃ nd nt, c = Cell.dt nd nt)
    (hlen : ∀ rv ∈ T.rows, rv.2.length = T.cols.length) :
    get_portfolio (write T M emptySheet) ['A', '4']
        ((colLetter (T.cols.length + 1)).data ++ natDigits (T.rows.length + 4))
      = ⟨Cell.str "ID", T.cols.map normHdr, T.rows⟩ := by
  have hclen : T.cols.length = dc.length + 2 := by
    rw [hcols]
    simp
  rw [get_portfolio, sheetRegion_write]
  rw [show List.range' 0 (T.rows.length + 1) = 0 :: List.range' 1 T.rows.length from rfl,
    List.map_cons]
  simp only [List.headD_cons, List.tail_cons]
  -- the header row read from sheet row 4
  have hsplit3 : List.range' 0 (T.cols.length + 1) = List.range' 0 3 ++ List.range' 3 dc.length := by
    have happ := List.range'_append 0 3 dc.length 1
    simp only [Nat.zero_add, Nat.one_mul] at happ
    rw [happ, hclen]
  have hdrop : ((List.range' 0 (T.cols.length + 1)).map (fun j =>
      (write T M emptySheet).cells (4 + 0) (1 + j))).drop 3
      = (List.range' 3 dc.length).map (fun j =>
          (write T M emptySheet).cells (4 + 0) (1 + j)) := by
    rw [hsplit3, List.map_append]
    have hlen3 : ((List.range' 0 3).map (fun j =>
        (write T M emptySheet).cells (4 + 0) (1 + j))).length = 3 := by
      simp [List.length_range']
    rw [List.drop_left' hlen3]
  have hdates : (List.range' 3 dc.length).map (fun j =>
      (write T M emptySheet).cells (4 + 0) (1 + j)) = dc.map normHdr := by
    refine List.ext_get? ?_
    intro u
    rw [List.get?_map, List.get?_map]
    by_cases hu : u < dc.length
    · rw [List.get?_range' 3 1 hu]
      obtain ⟨c, hcu⟩ : ∃ c, dc.get? u = some c := by
        rw [← Option.isSome_iff_exists]
        rw [List.get?_eq_get hu]
        rfl
      obtain ⟨nd, nt, rfl⟩ := hdc c (List.get?_mem hcu)
      have hcell := write_cells_date T M emptySheet (2 + u) nd nt
        (cols_get?_dates T dc hcols u _ hcu)
      rw [hcu, Option.map_some', Option.map_some']
      rw [show (4 + 0 : Nat) = 4 from rfl, show 1 + (3 + 1 * u) = 2 + u + 2 from by omega,
        hcell]
      rfl
    · have h1 : (List.range' 3 dc.length).get? u = none := by
        rw [List.get?_eq_none, List.length_range']
        exact Nat.le_of_not_lt hu
      have h2 : dc.get? u = none := by
        rw [List.get?_eq_none]
        exact Nat.le_of_not_lt hu
      rw [h1, h2]
      rfl
  -- the body rows read from sheet rows 5 onwards
  have hbody : ((List.range' 1 T.rows.length).map (fun i =>
      (List.range' 0 (T.cols.length + 1)).map (fun j =>
        (write T M emptySheet).cells (4 + i) (1 + j)))).map (fun r =>
          (r.getD 0 Cell.empty, r.eraseIdx 0)) = T.rows := by
    rw [List.map_map]
    refine List.ext_get? ?_
    intro i
    rw [List.get?_map]
    by_cases hi : i < T.rows.length
    · rw [List.get?_range' 1 1 hi]
      obtain ⟨rv, hrv⟩ : ∃ rv, T.rows.get? i = some rv := by
        rw [← Option.isSome_iff_exists, List.get?_eq_get hi]
        rfl
      rw [hrv]
      simp only [Option.map_some', Function.comp]
      have hrow0 : (List.range' 0 (T.cols.length + 1)).map (fun j =>
          (write T M emptySheet).cells (4 + (1 + 1 * i)) (1 + j))
          = (write T M emptySheet).cells (i + 5) 1 ::
            (List.range' 1 T.cols.length).map (fun j =>
              (write T M emptySheet).cells (4 + (1 + 1 * i)) (1 + j)) := by
        rw [show List.range' 0 (T.cols.length + 1) = 0 :: List.range' 1 T.cols.length from rfl,
          List.map_cons]
        rw [show 4 + (1 + 1 * i) = i + 5 from by omega]
      rw [hrow0]
      simp only [List.getD_cons_zero, List.eraseIdx_cons_zero]
      obtain ⟨rid, rvals⟩ := rv
      rw [Option.some.injEq, Prod.mk.injEq]
      refine ⟨write_cells_body_id T M i (rid, rvals) hrv, ?_⟩
      refine List.ext_get? ?_
      intro j
      rw [List.get?_map]
      by_cases hj : j < T.cols.length
      · rw [List.get?_range' 1 1 hj]
        have hjlen : j < rvals.length := by
          rw [hlen (rid, rvals) (List.get?_mem hrv)]
          exact hj
        obtain ⟨v, hv⟩ : ∃ v, rvals.get? j = some v := by
          rw [← Option.isSome_iff_exists, List.get?_eq_get hjlen]
          rfl
        have hcell := write_cells_body_val T M i j (rid, rvals) v hrv hv
        rw [hv, Option.map_some']
        rw [show 4 + (1 + 1 * i) = i + 5 from by omega,
          show 1 + (1 + 1 * j) = j + 2 from by omega, hcell]
      · have h1 : (List.range' 1 T.cols.length).get? j = none := by
          rw [List.get?_eq_none, List.length_range']
          exact Nat.le_of_not_lt hj
        have h2 : rvals.get? j = none := by
          rw [List.get?_eq_none, hlen (rid, rvals) (List.get?_mem hrv)]
          exact Nat.le_of_not_lt hj
        rw [h1, h2]
        rfl
    · have h1 : (List.range' 1 T.rows.length).get? i = none := by
        rw [List.get?_eq_none, List.length_range']
        exact Nat.le_of_not_lt hi
      have h2 : T.rows.get? i = none := by
        rw [List.get?_eq_none]
        exact Nat.le_of_not_lt hi
      rw [h1, h2]
      rfl
  rw [hdrop, hdates]
  rw [setIndexF]
  simp only [List.cons_append, List.nil_append]
  rw [List.findIdx_cons]
  simp only [decide_True, cond_true]
  congr 1
  · rw [hcols]
    rfl
  try exact hbody

/-- C7, counterexample: the claim quantifies over every Metadata, but `write`
never recomputes range keys (the `update_metadata` call inside it is
commented out, source line 130), so writing a table with an empty Metadata
and loading the sheet back with the vendor layout fails with a KeyError on
the label-range key instead of yielding an equivalent table. -/
theorem write_load_roundtrip_fails_without_ranges :
    load_stylus (write exT6 [] emptySheet)
      = Except.error (LoadError.keyError "MPI_LABELRANGE") := by decide

/-- C7 (amended): for every identifier-indexed Table (columns Label, DBID,
then `datetime` date columns, rows of matching width) and every Metadata with
non-empty string keys, no duplicate keys, and whose four derived range keys
hold exactly the values `update_metadata` computes for the Table's shape,
writing them to an empty sheet and loading that sheet back with the vendor
(Stylus) layout yields the original Metadata verbatim and a Table equal to
the original except that each `datetime` column header comes back as its
calendar date (`write` discards the time of day) — the same identifiers, the
same field values and the same date set. -/
theorem write_load_roundtrip (T : Df) (M : Dict) (dc : List Cell)
    (hidx : T.indexName = Cell.str "ID")
    (hcols : T.cols = Cell.str "Label" :: Cell.str "DBID" :: dc)
    (hdc : ∀ c ∈ dc, ∃ nd nt, c = Cell.dt nd nt)
    (hlen : ∀ rv ∈ T.rows, rv.2.length = T.cols.length)
    (hkeys : ∀ kv ∈ M, ∃ s, kv.1 = Cell.str s ∧ s ≠ "")
    (hnodup : (M.map Prod.fst).Nodup)
    ( _hA : Dict.find? M (Cell.str "MPI_ASSETIDRANGE") =
      some (Cell.str ("A5:A" ++ strOfNat (T.rows.length + 4))))
    (hL : Dict.find? M (Cell.str "MPI_LABELRANGE") =
      some (Cell.str ("B5:B" ++ strOfNat (T.rows.length + 4))))
    ( _hDb : Dict.find? M (Cell.str "MPI_ASSETDBIDRANGE") =
      some (Cell.str ("C5:C" ++ strOfNat (T.rows.length + 4))))
    (hD : Dict.find? M (Cell.str "MPI_PORTFOLIODATERANGE") =
      some (Cell.str ("D4:" ++ colLetter (T.cols.length + 1) ++ "4"))) :
    load_stylus (write T M emptySheet) =
      Except.ok (⟨T.indexName, T.cols.map normHdr, T.rows⟩, M) := by
  rw [hidx, load_stylus, get_metadata_write T M hkeys hnodup hL hD]
  show Except.ok (get_portfolio (write T M emptySheet) ['A', '4']
    ((colLetter (T.cols.length + 1)).data ++ natDigits (T.rows.length + 4)), M) = _
  rw [get_portfolio_write T M dc hcols hdc hlen]

theorem write_load_roundtrip_witness :
    load_stylus (write exT6 exM6 emptySheet) =
      Except.ok (⟨exT6.indexName, exT6.cols.map normHdr, exT6.rows⟩, exM6) := by
  have hM : exM6 = [(Cell.str "MPI_Rebalance", Cell.str "Monthly"),
      (Cell.str "MPI_PORTFOLIOTYPE", Cell.str "Advanced"),
      (Cell.str "MPI_ASSETIDRANGE", Cell.str "A5:A5"),
      (Cell.str "MPI_LABELRANGE", Cell.str "B5:B5"),
      (Cell.str "MPI_ASSETDBIDRANGE", Cell.str "C5:C5"),
      (Cell.str "MPI_PORTFOLIODATERANGE", Cell.str "D4:D4")] := by decide
  refine write_load_roundtrip exT6 exM6 [Cell.dt 20180101 0] (by decide) rfl ?_ (by decide)
    ?_ (by decide) (by decide) (by decide) (by decide) (by decide)
  · intro c hc
    rw [List.mem_singleton] at hc
    exact ⟨20180101, 0, hc⟩
  · intro kv hkv
    rw [hM] at hkv
    simp only [List.mem_cons, List.not_mem_nil, or_false] at hkv
    rcases hkv with rfl | rfl | rfl | rfl | rfl | rfl
    · exact ⟨"MPI_Rebalance", rfl, by decide⟩
    · exact ⟨"MPI_PORTFOLIOTYPE", rfl, by decide⟩
    · exact ⟨"MPI_ASSETIDRANGE", rfl, by decide⟩
    · exact ⟨"MPI_LABELRANGE", rfl, by decide⟩
    · exact ⟨"MPI_ASSETDBIDRANGE", rfl, by decide⟩
    · exact ⟨"MPI_PORTFOLIODATERANGE", rfl, by decide⟩
